import Mathlib

/-!
Verification of the reward-ledger and approval-workflow engine of the task bot
(src/main.py). The SQLite tables become lists of rows, the per-conversation
`context.user_data` drafts become optional fields on the user row, and each
handler becomes a pure state-transformer returning its reply tag and the new
state. Amounts are modelled as rationals, counters as integers (the SQL
columns are signed).
-/

namespace TaskBot

/-- Submission status column: 'pending' | 'approved' | 'rejected'. -/
inductive SubStatus
  | pending
  | approved
  | rejected
deriving DecidableEq, Repr

/-- Withdrawal status column: 'pending' | 'completed' | 'rejected'. -/
inductive WStatus
  | pending
  | completed
  | rejected
deriving DecidableEq, Repr

/-- Transaction type column values actually written by the code. -/
inductive TxType
  | credit
  | debit
  | withdrawal_request
  | refund
deriving DecidableEq, Repr

/-- Withdrawal method: 'upi' | 'gateway'. -/
inductive Method
  | upi
  | gateway
deriving DecidableEq, Repr

/-- MIN_WITHDRAWAL_UPI = 10, MIN_WITHDRAWAL_GATEWAY = 1. -/
def methodMin : Method → ℚ
  | .upi => 10
  | .gateway => 1

/-- The withdrawal conversation state carried in context.user_data:
after method selection the bot awaits an amount; after the amount passes
its checks the bot awaits account details, remembering the amount. -/
inductive WDraft
  | awaitingAmount (m : Method)
  | awaitingDetails (m : Method) (amount : ℚ)
deriving DecidableEq, Repr

/-- A row of the users table, together with this user's conversation
drafts (context.user_data of the submission and withdrawal flows). -/
structure User where
  balance : ℚ
  total_earned : ℚ
  total_withdrawn : ℚ
  completed_tasks : ℤ
  pending_tasks : ℤ
  is_verified : Bool
  is_blocked : Bool
  verified_ip : Option String
  pending_submission : Option ℕ
  wdraft : Option WDraft
deriving DecidableEq, Repr

/-- A row of the tasks table (fields the engine reads). -/
structure Task where
  task_id : ℕ
  reward : ℚ
  is_active : Bool
deriving DecidableEq, Repr

/-- A row of the submissions table (fields the engine reads). -/
structure Submission where
  submission_id : ℕ
  user_id : ℕ
  task_id : ℕ
  status : SubStatus
deriving DecidableEq, Repr

/-- A row of the withdrawals table (fields the engine reads). -/
structure Withdrawal where
  withdrawal_id : ℕ
  user_id : ℕ
  amount : ℚ
  method : Method
  status : WStatus
deriving DecidableEq, Repr

/-- A row of the transactions log. -/
structure Transaction where
  user_id : ℕ
  type : TxType
  amount : ℚ
  balance_before : ℚ
  balance_after : ℚ
deriving DecidableEq, Repr

/-- A row of the ip_addresses table. -/
structure IpRecord where
  ip_address : String
  user_id : ℕ
  first_seen : ℕ
  last_seen : ℕ
deriving DecidableEq, Repr

/-- The whole database plus the AUTOINCREMENT counters for the two tables
whose generated ids the code reads back (c.lastrowid). -/
structure St where
  users : List (ℕ × User)
  tasks : List Task
  submissions : List Submission
  withdrawals : List Withdrawal
  transactions : List Transaction
  ips : List IpRecord
  nextSubId : ℕ
  nextWId : ℕ
  nextTaskId : ℕ
deriving DecidableEq, Repr

/-- Assoc-list lookup by user id (SELECT ... WHERE user_id = ?). -/
def lookupUser : List (ℕ × User) → ℕ → Option User
  | [], _ => none
  | p :: rest, uid => if p.1 = uid then some p.2 else lookupUser rest uid

def getUser (st : St) (uid : ℕ) : Option User :=
  lookupUser st.users uid

/-- UPDATE users SET ... WHERE user_id = ? (no-op when the row is absent). -/
def updUser (l : List (ℕ × User)) (uid : ℕ) (f : User → User) : List (ℕ × User) :=
  l.map (fun p => if p.1 = uid then (p.1, f p.2) else p)

def updateUser (st : St) (uid : ℕ) (f : User → User) : St :=
  { st with users := updUser st.users uid f }

/-- log_transaction: INSERT INTO transactions (append-only). -/
def log_transaction (st : St) (uid : ℕ) (ty : TxType) (amt bBefore bAfter : ℚ) : St :=
  { st with transactions :=
      st.transactions ++ [⟨uid, ty, amt, bBefore, bAfter⟩] }

/-- The sign convention of the ledger: credits and refunds add to the
balance, debits and withdrawal holds subtract from it. -/
def signedAmount (t : Transaction) : ℚ :=
  match t.type with
  | .credit => t.amount
  | .refund => t.amount
  | .debit => -t.amount
  | .withdrawal_request => -t.amount

def userTxs (st : St) (uid : ℕ) : List Transaction :=
  st.transactions.filter (fun t => decide (t.user_id = uid))

def txSum (st : St) (uid : ℕ) : ℚ :=
  ((userTxs st uid).map signedAmount).sum

/-- The balance column of a user row, 0 when the row is absent. -/
def balanceOf (st : St) (uid : ℕ) : ℚ :=
  match getUser st uid with
  | some u => u.balance
  | none => 0

def findActiveTask (st : St) (tid : ℕ) : Option Task :=
  st.tasks.find? (fun t => decide (t.task_id = tid ∧ t.is_active = true))

def findTask (st : St) (tid : ℕ) : Option Task :=
  st.tasks.find? (fun t => decide (t.task_id = tid))

/-- SELECT ... FROM submissions WHERE submission_id = ? AND status = 'pending'. -/
def findPendingSub (st : St) (sid : ℕ) : Option Submission :=
  st.submissions.find? (fun s => decide (s.submission_id = sid ∧ s.status = SubStatus.pending))

/-- SELECT ... FROM withdrawals WHERE withdrawal_id = ? AND status = 'pending'. -/
def findPendingW (st : St) (wid : ℕ) : Option Withdrawal :=
  st.withdrawals.find? (fun w => decide (w.withdrawal_id = wid ∧ w.status = WStatus.pending))

/-- Number of pending submissions of (user, task). -/
def pendingSubCount (st : St) (uid tid : ℕ) : ℕ :=
  st.submissions.countP (fun s => decide (s.user_id = uid ∧ s.task_id = tid ∧ s.status = SubStatus.pending))

/-- Number of pending submissions of a user over all tasks. -/
def userPendingCount (st : St) (uid : ℕ) : ℕ :=
  st.submissions.countP (fun s => decide (s.user_id = uid ∧ s.status = SubStatus.pending))

/-- UPDATE submissions SET status = ? WHERE submission_id = ?. -/
def closeSub (l : List Submission) (sid : ℕ) (stNew : SubStatus) : List Submission :=
  l.map (fun q => if q.submission_id = sid then { q with status := stNew } else q)

/-- UPDATE withdrawals SET status = ? WHERE withdrawal_id = ?. -/
def closeW (l : List Withdrawal) (wid : ℕ) (stNew : WStatus) : List Withdrawal :=
  l.map (fun q => if q.withdrawal_id = wid then { q with status := stNew } else q)

/-- A fresh users row (all DEFAULT columns). -/
def blankUser : User :=
  { balance := 0, total_earned := 0, total_withdrawn := 0,
    completed_tasks := 0, pending_tasks := 0,
    is_verified := false, is_blocked := false, verified_ip := none,
    pending_submission := none, wdraft := none }

/-- /start: create the user row on first contact, otherwise leave it. -/
def start (st : St) (uid : ℕ) : St :=
  match getUser st uid with
  | some _ => st
  | none => { st with users := st.users ++ [(uid, blankUser)] }

def findIp (st : St) (ip : String) : Option IpRecord :=
  st.ips.find? (fun r => decide (r.ip_address = ip))

/-- verify_user_ip: refuse when the address belongs to another user;
otherwise INSERT OR REPLACE the record (COALESCE keeps first_seen) and
mark the user verified. -/
def verify_user_ip (st : St) (uid : ℕ) (ip : String) (now : ℕ) : Bool × St :=
  match findIp st ip with
  | some r =>
    if r.user_id ≠ uid then (false, st)
    else
      let st1 := { st with ips := st.ips.map (fun q =>
        if q.ip_address = ip then { q with user_id := uid, last_seen := now } else q) }
      (true, updateUser st1 uid (fun u => { u with verified_ip := some ip, is_verified := true }))
  | none =>
    let st1 := { st with ips := st.ips ++ [⟨ip, uid, now, now⟩] }
    (true, updateUser st1 uid (fun u => { u with verified_ip := some ip, is_verified := true }))

inductive SubmitRes
  | notVerified
  | taskNotFound
  | pendingExists
  | ok
deriving DecidableEq, Repr

/-- submit_task: the /submit command. Requires a verified, unblocked user
and an active task, rejects when a pending submission for this pair
exists, otherwise stores the awaited task id in context.user_data. -/
def submit_task (st : St) (uid tid : ℕ) : SubmitRes × St :=
  match getUser st uid with
  | none => (.notVerified, st)
  | some u =>
    if u.is_verified = false ∨ u.is_blocked = true then (.notVerified, st)
    else match findActiveTask st tid with
      | none => (.taskNotFound, st)
      | some _ =>
        if st.submissions.any (fun s =>
            decide (s.user_id = uid ∧ s.task_id = tid ∧ s.status = SubStatus.pending))
        then (.pendingExists, st)
        else (.ok, updateUser st uid (fun v => { v with pending_submission := some tid }))

inductive ScreenshotRes
  | noDraft
  | alreadyCompleted
  | ok (sid : ℕ)
deriving DecidableEq, Repr

/-- handle_screenshot: consume the stored draft, refuse a task already
approved for this user, otherwise insert the pending submission row and
increment pending_tasks. -/
def handle_screenshot (st : St) (uid : ℕ) : ScreenshotRes × St :=
  match getUser st uid with
  | none => (.noDraft, st)
  | some u =>
    match u.pending_submission with
    | none => (.noDraft, st)
    | some tid =>
      if st.submissions.any (fun s =>
          decide (s.user_id = uid ∧ s.task_id = tid ∧ s.status = SubStatus.approved))
      then (.alreadyCompleted, updateUser st uid (fun v => { v with pending_submission := none }))
      else
        let sid := st.nextSubId
        let st1 := { st with
          submissions := st.submissions ++ [⟨sid, uid, tid, .pending⟩],
          nextSubId := sid + 1 }
        (.ok sid, updateUser st1 uid (fun v =>
          { v with pending_tasks := v.pending_tasks + 1, pending_submission := none }))

inductive ReviewRes
  | notFoundOrProcessed
  | ok
deriving DecidableEq, Repr

/-- admin_approve_submission: the joined SELECT only returns a row while
the submission is pending and its task and user rows exist; on success
mark approved, credit the reward, bump the counters, log one credit. -/
def admin_approve_submission (st : St) (sid : ℕ) : ReviewRes × St :=
  match findPendingSub st sid with
  | none => (.notFoundOrProcessed, st)
  | some s =>
    match findTask st s.task_id, getUser st s.user_id with
    | some t, some u =>
      let newBalance := u.balance + t.reward
      let st1 := { st with submissions := closeSub st.submissions sid .approved }
      let st2 := updateUser st1 s.user_id (fun v =>
        { v with balance := newBalance,
                 total_earned := v.total_earned + t.reward,
                 completed_tasks := v.completed_tasks + 1,
                 pending_tasks := v.pending_tasks - 1 })
      (.ok, log_transaction st2 s.user_id .credit t.reward u.balance newBalance)
    | _, _ => (.notFoundOrProcessed, st)

/-- admin_reject_submission: mark rejected and decrement pending_tasks;
no balance change and no transaction. -/
def admin_reject_submission (st : St) (sid : ℕ) : ReviewRes × St :=
  match findPendingSub st sid with
  | none => (.notFoundOrProcessed, st)
  | some s =>
    match getUser st s.user_id with
    | none => (.notFoundOrProcessed, st)
    | some _ =>
      let st1 := { st with submissions := closeSub st.submissions sid .rejected }
      (.ok, updateUser st1 s.user_id (fun v => { v with pending_tasks := v.pending_tasks - 1 }))

/-- handle_withdraw_method: the callback stores the chosen method and
starts awaiting an amount. -/
def handle_withdraw_method (st : St) (uid : ℕ) (m : Method) : St :=
  updateUser st uid (fun u => { u with wdraft := some (.awaitingAmount m) })

inductive AmountRes
  | noPrompt
  | belowMinimum
  | insufficientBalance
  | ok
deriving DecidableEq, Repr

/-- handle_withdraw_amount: check the method minimum and the CURRENT
balance; on success remember the amount and await account details.
The failure paths keep the awaiting state (the user may retry). -/
def handle_withdraw_amount (st : St) (uid : ℕ) (amount : ℚ) : AmountRes × St :=
  match getUser st uid with
  | none => (.noPrompt, st)
  | some u =>
    match u.wdraft with
    | some (.awaitingAmount m) =>
      if amount < methodMin m then (.belowMinimum, st)
      else if amount > u.balance then (.insufficientBalance, st)
      else (.ok, updateUser st uid (fun v => { v with wdraft := some (.awaitingDetails m amount) }))
    | _ => (.noPrompt, st)

inductive DetailsRes
  | noPrompt
  | invalidDetails
  | ok (wid : ℕ)
deriving DecidableEq, Repr

/-- handle_withdraw_details: on valid details, insert the pending
withdrawal row, deduct the drafted amount from the balance (no re-check
against the current balance), add it to total_withdrawn and log one
withdrawal_request transaction. -/
def handle_withdraw_details (st : St) (uid : ℕ) (detailsValid : Bool) : DetailsRes × St :=
  match getUser st uid with
  | none => (.noPrompt, st)
  | some u =>
    match u.wdraft with
    | some (.awaitingDetails m amount) =>
      if detailsValid = false then (.invalidDetails, st)
      else
        let wid := st.nextWId
        let bBefore := u.balance
        let bAfter := bBefore - amount
        let st1 := { st with
          withdrawals := st.withdrawals ++ [⟨wid, uid, amount, m, .pending⟩],
          nextWId := wid + 1 }
        let st2 := updateUser st1 uid (fun v =>
          { v with balance := bAfter,
                   total_withdrawn := v.total_withdrawn + amount,
                   wdraft := none })
        (.ok wid, log_transaction st2 uid .withdrawal_request amount bBefore bAfter)
    | _ => (.noPrompt, st)

/-- admin_approve_withdrawal: mark completed; no balance change (funds
were held at request time). -/
def admin_approve_withdrawal (st : St) (wid : ℕ) : ReviewRes × St :=
  match findPendingW st wid with
  | none => (.notFoundOrProcessed, st)
  | some _ =>
    (.ok, { st with withdrawals := closeW st.withdrawals wid .completed })

/-- admin_reject_withdrawal: mark rejected, refund the amount to the
balance and log one refund transaction. (When the withdrawal's user row
is absent the code raises before its first write and commits nothing;
users are never deleted, so the branch is unreachable — modelled as an
error return with the state unchanged.) -/
def admin_reject_withdrawal (st : St) (wid : ℕ) : ReviewRes × St :=
  match findPendingW st wid with
  | none => (.notFoundOrProcessed, st)
  | some w =>
    match getUser st w.user_id with
    | none => (.notFoundOrProcessed, st)
    | some u =>
      let newBalance := u.balance + w.amount
      let st1 := { st with withdrawals := closeW st.withdrawals wid .rejected }
      let st2 := updateUser st1 w.user_id (fun v => { v with balance := newBalance })
      (.ok, log_transaction st2 w.user_id .refund w.amount u.balance newBalance)

inductive AdminPointsRes
  | userNotFound
  | insufficientBalance
  | ok
deriving DecidableEq, Repr

/-- admin_add_points: /addpoints — no sign check on the parsed amount;
adds it to both balance and total_earned and logs a credit. -/
def admin_add_points (st : St) (target : ℕ) (amount : ℚ) : AdminPointsRes × St :=
  match getUser st target with
  | none => (.userNotFound, st)
  | some u =>
    let newBalance := u.balance + amount
    let st1 := updateUser st target (fun v =>
      { v with balance := newBalance, total_earned := v.total_earned + amount })
    (.ok, log_transaction st1 target .credit amount u.balance newBalance)

/-- admin_deduct_points: /deductpoints — fails closed on insufficient
balance, otherwise deducts and logs a debit. -/
def admin_deduct_points (st : St) (target : ℕ) (amount : ℚ) : AdminPointsRes × St :=
  match getUser st target with
  | none => (.userNotFound, st)
  | some u =>
    if u.balance < amount then (.insufficientBalance, st)
    else
      let newBalance := u.balance - amount
      let st1 := updateUser st target (fun v => { v with balance := newBalance })
      (.ok, log_transaction st1 target .debit amount u.balance newBalance)

/-- admin_handle_task_add: INSERT INTO tasks with is_active = 1. -/
def admin_handle_task_add (st : St) (reward : ℚ) : St :=
  { st with tasks := st.tasks ++ [⟨st.nextTaskId, reward, true⟩],
            nextTaskId := st.nextTaskId + 1 }

/-- admin_remove_task: soft deactivation. -/
def admin_remove_task (st : St) (tid : ℕ) : St :=
  { st with tasks := st.tasks.map (fun t =>
      if t.task_id = tid then { t with is_active := false } else t) }

/-- Every state-mutating entry point of the engine, with its inputs. -/
inductive Op
  | start (uid : ℕ)
  | verifyIp (uid : ℕ) (ip : String) (now : ℕ)
  | submitTask (uid tid : ℕ)
  | screenshot (uid : ℕ)
  | approveSub (sid : ℕ)
  | rejectSub (sid : ℕ)
  | withdrawMethod (uid : ℕ) (m : Method)
  | withdrawAmount (uid : ℕ) (amount : ℚ)
  | withdrawDetails (uid : ℕ) (valid : Bool)
  | approveW (wid : ℕ)
  | rejectW (wid : ℕ)
  | addPoints (uid : ℕ) (amount : ℚ)
  | deductPoints (uid : ℕ) (amount : ℚ)
  | addTask (reward : ℚ)
  | removeTask (tid : ℕ)
deriving DecidableEq, Repr

def step (st : St) : Op → St
  | .start uid => start st uid
  | .verifyIp uid ip now => (verify_user_ip st uid ip now).2
  | .submitTask uid tid => (submit_task st uid tid).2
  | .screenshot uid => (handle_screenshot st uid).2
  | .approveSub sid => (admin_approve_submission st sid).2
  | .rejectSub sid => (admin_reject_submission st sid).2
  | .withdrawMethod uid m => handle_withdraw_method st uid m
  | .withdrawAmount uid amount => (handle_withdraw_amount st uid amount).2
  | .withdrawDetails uid valid => (handle_withdraw_details st uid valid).2
  | .approveW wid => (admin_approve_withdrawal st wid).2
  | .rejectW wid => (admin_reject_withdrawal st wid).2
  | .addPoints uid amount => (admin_add_points st uid amount).2
  | .deductPoints uid amount => (admin_deduct_points st uid amount).2
  | .addTask reward => admin_handle_task_add st reward
  | .removeTask tid => admin_remove_task st tid

/-- The freshly initialised database. -/
def initSt : St :=
  { users := [], tasks := [], submissions := [], withdrawals := [],
    transactions := [], ips := [], nextSubId := 1, nextWId := 1, nextTaskId := 1 }

def run (ops : List Op) : St :=
  ops.foldl step initSt

/-- States reachable from the fresh database by engine operations. -/
inductive Reach : St → Prop
  | init : Reach initSt
  | next (st : St) (op : Op) : Reach st → Reach (step st op)

lemma reach_run (ops : List Op) : Reach (run ops) := by
  suffices h : ∀ (l : List Op) (st : St), Reach st → Reach (l.foldl step st) from
    h ops initSt Reach.init
  intro l
  induction l with
  | nil => intro st h; exact h
  | cons op rest ih => intro st h; exact ih (step st op) (Reach.next st op h)

/-! ### Basic lookup and update lemmas -/

lemma lookupUser_mem {l : List (ℕ × User)} {uid : ℕ} {u : User}
    (h : lookupUser l uid = some u) : (uid, u) ∈ l := by
  induction l with
  | nil => simp [lookupUser] at h
  | cons p rest ih =>
    rw [lookupUser] at h
    split at h
    · next hp =>
      injection h with h
      exact List.mem_cons.2 (Or.inl (by cases p; simp_all))
    · exact List.mem_cons.2 (Or.inr (ih h))

lemma lookupUser_updUser (l : List (ℕ × User)) (uid : ℕ) (f : User → User) (v : ℕ) :
    lookupUser (updUser l uid f) v =
      if v = uid then (lookupUser l v).map f else lookupUser l v := by
  induction l with
  | nil => simp [lookupUser, updUser]
  | cons p rest ih =>
    obtain ⟨k, w⟩ := p
    unfold updUser at ih ⊢
    rw [List.map_cons]
    by_cases hk : k = uid
    · subst hk
      by_cases hv : v = k
      · subst hv
        simp [lookupUser, ih]
      · have hkv : ¬ k = v := fun h => hv h.symm
        simp [lookupUser, hkv, hv, ih]
    · by_cases hkv : k = v
      · subst hkv
        simp [lookupUser, hk]
      · simp [lookupUser, hk, hkv, ih]

lemma lookupUser_append (l₁ l₂ : List (ℕ × User)) (uid : ℕ) :
    lookupUser (l₁ ++ l₂) uid = (lookupUser l₁ uid).or (lookupUser l₂ uid) := by
  induction l₁ with
  | nil => simp [lookupUser]
  | cons p rest ih =>
    rw [List.cons_append, lookupUser, lookupUser]
    split
    · rfl
    · exact ih

lemma getUser_updateUser (st : St) (uid : ℕ) (f : User → User) (v : ℕ) :
    getUser (updateUser st uid f) v =
      if v = uid then (getUser st v).map f else getUser st v :=
  lookupUser_updUser st.users uid f v

@[simp] lemma updateUser_tasks (st : St) (uid : ℕ) (f : User → User) :
    (updateUser st uid f).tasks = st.tasks := rfl

@[simp] lemma updateUser_submissions (st : St) (uid : ℕ) (f : User → User) :
    (updateUser st uid f).submissions = st.submissions := rfl

@[simp] lemma updateUser_withdrawals (st : St) (uid : ℕ) (f : User → User) :
    (updateUser st uid f).withdrawals = st.withdrawals := rfl

@[simp] lemma updateUser_transactions (st : St) (uid : ℕ) (f : User → User) :
    (updateUser st uid f).transactions = st.transactions := rfl

@[simp] lemma updateUser_ips (st : St) (uid : ℕ) (f : User → User) :
    (updateUser st uid f).ips = st.ips := rfl

@[simp] lemma updateUser_nextSubId (st : St) (uid : ℕ) (f : User → User) :
    (updateUser st uid f).nextSubId = st.nextSubId := rfl

@[simp] lemma updateUser_nextWId (st : St) (uid : ℕ) (f : User → User) :
    (updateUser st uid f).nextWId = st.nextWId := rfl

@[simp] lemma log_users (st : St) (uid : ℕ) (ty : TxType) (a b c : ℚ) :
    (log_transaction st uid ty a b c).users = st.users := rfl

@[simp] lemma log_tasks (st : St) (uid : ℕ) (ty : TxType) (a b c : ℚ) :
    (log_transaction st uid ty a b c).tasks = st.tasks := rfl

@[simp] lemma log_submissions (st : St) (uid : ℕ) (ty : TxType) (a b c : ℚ) :
    (log_transaction st uid ty a b c).submissions = st.submissions := rfl

@[simp] lemma log_withdrawals (st : St) (uid : ℕ) (ty : TxType) (a b c : ℚ) :
    (log_transaction st uid ty a b c).withdrawals = st.withdrawals := rfl

@[simp] lemma log_ips (st : St) (uid : ℕ) (ty : TxType) (a b c : ℚ) :
    (log_transaction st uid ty a b c).ips = st.ips := rfl

@[simp] lemma log_nextSubId (st : St) (uid : ℕ) (ty : TxType) (a b c : ℚ) :
    (log_transaction st uid ty a b c).nextSubId = st.nextSubId := rfl

@[simp] lemma log_nextWId (st : St) (uid : ℕ) (ty : TxType) (a b c : ℚ) :
    (log_transaction st uid ty a b c).nextWId = st.nextWId := rfl

@[simp] lemma log_transactions (st : St) (uid : ℕ) (ty : TxType) (a b c : ℚ) :
    (log_transaction st uid ty a b c).transactions =
      st.transactions ++ [⟨uid, ty, a, b, c⟩] := rfl

@[simp] lemma getUser_log (st : St) (uid : ℕ) (ty : TxType) (a b c : ℚ) (v : ℕ) :
    getUser (log_transaction st uid ty a b c) v = getUser st v := rfl

lemma userTxs_log (st : St) (uid : ℕ) (ty : TxType) (a b c : ℚ) (v : ℕ) :
    userTxs (log_transaction st uid ty a b c) v =
      userTxs st v ++ (if uid = v then [⟨uid, ty, a, b, c⟩] else []) := by
  unfold userTxs
  rw [log_transactions, List.filter_append]
  congr 1
  by_cases h : uid = v <;> simp [h]

lemma txSum_log (st : St) (uid : ℕ) (ty : TxType) (a b c : ℚ) (v : ℕ) :
    txSum (log_transaction st uid ty a b c) v =
      txSum st v + (if uid = v then signedAmount ⟨uid, ty, a, b, c⟩ else 0) := by
  unfold txSum
  rw [userTxs_log]
  by_cases h : uid = v <;> simp [h]

/-! ### The ledger bracket property: one step either leaves a user's
balance and transaction list alone, or appends exactly one transaction
whose before/after fields bracket the balance change. -/

def Bracket (st stNew : St) : Prop :=
  ∀ uid, (balanceOf stNew uid = balanceOf st uid ∧ userTxs stNew uid = userTxs st uid)
    ∨ ∃ tx, userTxs stNew uid = userTxs st uid ++ [tx]
        ∧ tx.user_id = uid
        ∧ tx.balance_before = balanceOf st uid
        ∧ tx.balance_after = balanceOf stNew uid
        ∧ signedAmount tx = balanceOf stNew uid - balanceOf st uid

lemma bracket_frame (st st1 : St) (husers : st1.users = st.users)
    (htxs : st1.transactions = st.transactions) : Bracket st st1 := by
  intro v
  left
  constructor
  · simp [balanceOf, getUser, husers]
  · simp [userTxs, htxs]

lemma balanceOf_eq (st : St) (v : ℕ) :
    balanceOf st v = ((getUser st v).map User.balance).getD 0 := by
  unfold balanceOf
  cases getUser st v <;> simp

lemma bracket_no_log (st st1 : St) (uid : ℕ) (f : User → User)
    (husers : st1.users = st.users) (htxs : st1.transactions = st.transactions)
    (hf : ∀ u, (f u).balance = u.balance) :
    Bracket st (updateUser st1 uid f) := by
  have hgu : ∀ v, getUser st1 v = getUser st v := by
    intro v; unfold getUser; rw [husers]
  intro v
  left
  constructor
  · rw [balanceOf_eq, balanceOf_eq, getUser_updateUser]
    by_cases hv : v = uid
    · rw [if_pos hv, hgu]
      cases getUser st v <;> simp [hf]
    · rw [if_neg hv, hgu]
  · unfold userTxs
    rw [updateUser_transactions, htxs]

lemma bracket_mut (st st1 : St) (uid : ℕ) (u : User) (f : User → User)
    (ty : TxType) (amt newBal : ℚ)
    (husers : st1.users = st.users) (htxs : st1.transactions = st.transactions)
    (hu : getUser st uid = some u)
    (hfb : ∀ v, (f v).balance = newBal)
    (hsign : signedAmount ⟨uid, ty, amt, u.balance, newBal⟩ = newBal - u.balance) :
    Bracket st (log_transaction (updateUser st1 uid f) uid ty amt u.balance newBal) := by
  have hb : balanceOf st uid = u.balance := by rw [balanceOf, hu]
  have hb1 : balanceOf (log_transaction (updateUser st1 uid f) uid ty amt u.balance newBal) uid
      = newBal := by
    rw [balanceOf, getUser_log, getUser_updateUser, if_pos rfl]
    unfold getUser
    rw [husers]
    rw [getUser] at hu
    rw [hu]
    simp [hfb]
  intro v
  by_cases hv : v = uid
  · subst hv
    right
    refine ⟨⟨v, ty, amt, u.balance, newBal⟩, ?_, rfl, ?_, ?_, ?_⟩
    · rw [userTxs_log, if_pos rfl]
      unfold userTxs
      rw [updateUser_transactions, htxs]
    · simp [hb]
    · simp [hb1]
    · rw [hb, hb1]; exact hsign
  · left
    constructor
    · rw [balanceOf, getUser_log, getUser_updateUser, if_neg hv]
      unfold balanceOf getUser
      rw [husers]
    · rw [userTxs_log, if_neg (fun h => hv h.symm)]
      unfold userTxs
      rw [updateUser_transactions, htxs]
      simp

lemma bracket_start (st : St) (uid : ℕ) : Bracket st (start st uid) := by
  unfold start
  cases hgu : getUser st uid with
  | some u => exact bracket_frame st st rfl rfl
  | none =>
    intro v
    left
    refine ⟨?_, rfl⟩
    show balanceOf { st with users := st.users ++ [(uid, blankUser)] } v = balanceOf st v
    unfold balanceOf getUser
    rw [show ({ st with users := st.users ++ [(uid, blankUser)] } : St).users
        = st.users ++ [(uid, blankUser)] from rfl]
    rw [lookupUser_append]
    cases hv : lookupUser st.users v with
    | some u => simp
    | none =>
      simp only [Option.none_or]
      unfold lookupUser
      by_cases h : uid = v
      · simp [h, blankUser]
      · simp [h, lookupUser]

lemma step_bracket (st : St) (op : Op) : Bracket st (step st op) := by
  cases op with
  | start uid => exact bracket_start st uid
  | verifyIp uid ip now =>
    show Bracket st (verify_user_ip st uid ip now).2
    unfold verify_user_ip
    cases h : findIp st ip with
    | some r =>
      try dsimp only
      by_cases hr : r.user_id ≠ uid
      · rw [if_pos hr]
        exact bracket_frame st st rfl rfl
      · rw [if_neg hr]
        exact bracket_no_log st _ uid _ rfl rfl (fun u => rfl)
    | none =>
      try dsimp only
      exact bracket_no_log st _ uid _ rfl rfl (fun u => rfl)
  | submitTask uid tid =>
    show Bracket st (submit_task st uid tid).2
    unfold submit_task
    cases h : getUser st uid with
    | none => exact bracket_frame st st rfl rfl
    | some u =>
      try dsimp only
      by_cases hb : u.is_verified = false ∨ u.is_blocked = true
      · rw [if_pos hb]
        exact bracket_frame st st rfl rfl
      · rw [if_neg hb]
        cases findActiveTask st tid with
        | none => exact bracket_frame st st rfl rfl
        | some t =>
          try dsimp only
          by_cases hp : st.submissions.any (fun s =>
              decide (s.user_id = uid ∧ s.task_id = tid ∧ s.status = SubStatus.pending))
          · rw [if_pos hp]
            exact bracket_frame st st rfl rfl
          · rw [if_neg hp]
            exact bracket_no_log st st uid _ rfl rfl (fun u => rfl)
  | screenshot uid =>
    show Bracket st (handle_screenshot st uid).2
    unfold handle_screenshot
    cases h : getUser st uid with
    | none => exact bracket_frame st st rfl rfl
    | some u =>
      try dsimp only
      cases hps : u.pending_submission with
      | none => exact bracket_frame st st rfl rfl
      | some tid =>
        try dsimp only
        by_cases hp : st.submissions.any (fun s =>
            decide (s.user_id = uid ∧ s.task_id = tid ∧ s.status = SubStatus.approved))
        · rw [if_pos hp]
          exact bracket_no_log st st uid _ rfl rfl (fun u => rfl)
        · rw [if_neg hp]
          exact bracket_no_log st _ uid _ rfl rfl (fun u => rfl)
  | approveSub sid =>
    show Bracket st (admin_approve_submission st sid).2
    unfold admin_approve_submission
    cases hs : findPendingSub st sid with
    | none => exact bracket_frame st st rfl rfl
    | some s =>
      try dsimp only
      cases ht : findTask st s.task_id with
      | none => exact bracket_frame st st rfl rfl
      | some t =>
        try dsimp only
        cases hu : getUser st s.user_id with
        | none => exact bracket_frame st st rfl rfl
        | some u =>
          try dsimp only
          exact bracket_mut st _ s.user_id u _ .credit t.reward (u.balance + t.reward)
            rfl rfl hu (fun v => rfl) (by dsimp only [signedAmount]; ring)
  | rejectSub sid =>
    show Bracket st (admin_reject_submission st sid).2
    unfold admin_reject_submission
    cases hs : findPendingSub st sid with
    | none => exact bracket_frame st st rfl rfl
    | some s =>
      try dsimp only
      cases hu : getUser st s.user_id with
      | none => exact bracket_frame st st rfl rfl
      | some u =>
        try dsimp only
        exact bracket_no_log st _ s.user_id _ rfl rfl (fun u => rfl)
  | withdrawMethod uid m =>
    exact bracket_no_log st st uid _ rfl rfl (fun u => rfl)
  | withdrawAmount uid amount =>
    show Bracket st (handle_withdraw_amount st uid amount).2
    unfold handle_withdraw_amount
    cases h : getUser st uid with
    | none => exact bracket_frame st st rfl rfl
    | some u =>
      try dsimp only
      cases hw : u.wdraft with
      | none => exact bracket_frame st st rfl rfl
      | some d =>
        cases d with
        | awaitingAmount m =>
          try dsimp only
          by_cases h1 : amount < methodMin m
          · rw [if_pos h1]
            exact bracket_frame st st rfl rfl
          · rw [if_neg h1]
            by_cases h2 : amount > u.balance
            · rw [if_pos h2]
              exact bracket_frame st st rfl rfl
            · rw [if_neg h2]
              exact bracket_no_log st st uid _ rfl rfl (fun u => rfl)
        | awaitingDetails m a => exact bracket_frame st st rfl rfl
  | withdrawDetails uid valid =>
    show Bracket st (handle_withdraw_details st uid valid).2
    unfold handle_withdraw_details
    cases h : getUser st uid with
    | none => exact bracket_frame st st rfl rfl
    | some u =>
      try dsimp only
      cases hw : u.wdraft with
      | none => exact bracket_frame st st rfl rfl
      | some d =>
        cases d with
        | awaitingAmount m => exact bracket_frame st st rfl rfl
        | awaitingDetails m a =>
          try dsimp only
          by_cases hv : valid = false
          · rw [if_pos hv]
            exact bracket_frame st st rfl rfl
          · rw [if_neg hv]
            exact bracket_mut st _ uid u _ .withdrawal_request a (u.balance - a)
              rfl rfl h (fun v => rfl) (by dsimp only [signedAmount]; ring)
  | approveW wid =>
    show Bracket st (admin_approve_withdrawal st wid).2
    unfold admin_approve_withdrawal
    cases hw : findPendingW st wid with
    | none => exact bracket_frame st st rfl rfl
    | some w => exact bracket_frame st _ rfl rfl
  | rejectW wid =>
    show Bracket st (admin_reject_withdrawal st wid).2
    unfold admin_reject_withdrawal
    cases hw : findPendingW st wid with
    | none => exact bracket_frame st st rfl rfl
    | some w =>
      try dsimp only
      cases hu : getUser st w.user_id with
      | none => exact bracket_frame st st rfl rfl
      | some u =>
        try dsimp only
        exact bracket_mut st _ w.user_id u _ .refund w.amount (u.balance + w.amount)
          rfl rfl hu (fun v => rfl) (by dsimp only [signedAmount]; ring)
  | addPoints uid amount =>
    show Bracket st (admin_add_points st uid amount).2
    unfold admin_add_points
    cases hu : getUser st uid with
    | none => exact bracket_frame st st rfl rfl
    | some u =>
      try dsimp only
      exact bracket_mut st st uid u _ .credit amount (u.balance + amount)
        rfl rfl hu (fun v => rfl) (by dsimp only [signedAmount]; ring)
  | deductPoints uid amount =>
    show Bracket st (admin_deduct_points st uid amount).2
    unfold admin_deduct_points
    cases hu : getUser st uid with
    | none => exact bracket_frame st st rfl rfl
    | some u =>
      try dsimp only
      by_cases h1 : u.balance < amount
      · rw [if_pos h1]
        exact bracket_frame st st rfl rfl
      · rw [if_neg h1]
        exact bracket_mut st st uid u _ .debit amount (u.balance - amount)
          rfl rfl hu (fun v => rfl) (by dsimp only [signedAmount]; ring)
  | addTask reward => exact bracket_frame st _ rfl rfl
  | removeTask tid => exact bracket_frame st _ rfl rfl

/-! ### List lemmas about closing a submission or withdrawal -/

lemma closeSub_map_id (l : List Submission) (sid : ℕ) (x : SubStatus) :
    (closeSub l sid x).map Submission.submission_id = l.map Submission.submission_id := by
  unfold closeSub
  rw [List.map_map]
  apply List.map_congr_left
  intro a _
  by_cases h : a.submission_id = sid <;> simp [h]

lemma closeW_map_id (l : List Withdrawal) (wid : ℕ) (x : WStatus) :
    (closeW l wid x).map Withdrawal.withdrawal_id = l.map Withdrawal.withdrawal_id := by
  unfold closeW
  rw [List.map_map]
  apply List.map_congr_left
  intro a _
  by_cases h : a.withdrawal_id = wid <;> simp [h]

lemma closeSub_id_stable (l : List Submission) (sid : ℕ) (x : SubStatus)
    (hno : ∀ q ∈ l, q.submission_id ≠ sid) : closeSub l sid x = l := by
  unfold closeSub
  rw [show l.map (fun q => if q.submission_id = sid then { q with status := x } else q)
      = l.map id from List.map_congr_left (fun a ha => by rw [if_neg (hno a ha)]; rfl)]
  exact List.map_id l

lemma countP_closeSub_le (l : List Submission) (sid : ℕ) (x : SubStatus)
    (hx : x ≠ SubStatus.pending) (p : Submission → Bool)
    (hp : ∀ q, p q = true → q.status = SubStatus.pending) :
    (closeSub l sid x).countP p ≤ l.countP p := by
  unfold closeSub
  rw [List.countP_map]
  apply List.countP_mono_left
  intro a _ h
  simp only [Function.comp] at h
  by_cases hid : a.submission_id = sid
  · rw [if_pos hid] at h
    exact absurd (hp _ h) hx
  · rwa [if_neg hid] at h

lemma countP_closeSub_found (l : List Submission) (sid : ℕ) (x : SubStatus)
    (hx : x ≠ SubStatus.pending)
    (hnd : (l.map Submission.submission_id).Nodup)
    (s : Submission)
    (hf : l.find? (fun a => decide (a.submission_id = sid ∧ a.status = SubStatus.pending)) = some s)
    (p : Submission → Bool)
    (hp : ∀ q, p q = true → q.status = SubStatus.pending) :
    (closeSub l sid x).countP p + (if p s = true then 1 else 0) = l.countP p := by
  induction l with
  | nil => simp [List.find?] at hf
  | cons a tl ih =>
    rw [List.map_cons, List.nodup_cons] at hnd
    by_cases hpa : a.submission_id = sid ∧ a.status = SubStatus.pending
    · have hsa : s = a := by
        rw [List.find?_cons_of_pos _ (by simpa using hpa)] at hf
        injection hf with h
        exact h.symm
      have hno : ∀ q ∈ tl, q.submission_id ≠ sid := by
        intro q hq hqs
        exact hnd.1 (by rw [hpa.1, ← hqs]; exact List.mem_map_of_mem _ hq)
      have hcl : closeSub tl sid x = tl := closeSub_id_stable tl sid x hno
      have hfalse : p { a with status := x } = false := by
        cases hb : p { a with status := x } with
        | true => exact absurd (hp _ hb) hx
        | false => rfl
      unfold closeSub
      rw [List.map_cons, if_pos hpa.1]
      rw [show List.map (fun q => if q.submission_id = sid then { q with status := x } else q) tl
          = closeSub tl sid x from rfl, hcl]
      rw [List.countP_cons, List.countP_cons, hfalse, hsa]
      cases hb : p a <;> simp [hb] <;> omega
    · have hf1 : tl.find? (fun a => decide (a.submission_id = sid ∧ a.status = SubStatus.pending))
          = some s := by
        rwa [List.find?_cons_of_neg _ (by simpa using hpa)] at hf
      have ihres := ih hnd.2 hf1
      by_cases hid : a.submission_id = sid
      · have hstat : a.status ≠ SubStatus.pending := fun h => hpa ⟨hid, h⟩
        have hb : p a = false := by
          cases h : p a with
          | true => exact absurd (hp _ h) hstat
          | false => rfl
        have hb2 : p { a with status := x } = false := by
          cases h : p { a with status := x } with
          | true => exact absurd (hp _ h) hx
          | false => rfl
        unfold closeSub
        rw [List.map_cons, if_pos hid, List.countP_cons, List.countP_cons, hb, hb2]
        unfold closeSub at ihres
        omega
      · unfold closeSub
        rw [List.map_cons, if_neg hid, List.countP_cons, List.countP_cons]
        unfold closeSub at ihres
        omega

lemma find_closeSub_none (l : List Submission) (sid : ℕ) (x : SubStatus)
    (hx : x ≠ SubStatus.pending) :
    (closeSub l sid x).find?
      (fun s => decide (s.submission_id = sid ∧ s.status = SubStatus.pending)) = none := by
  rw [List.find?_eq_none]
  intro q hq
  unfold closeSub at hq
  obtain ⟨a, _, rfl⟩ := List.mem_map.1 hq
  by_cases hid : a.submission_id = sid
  · rw [if_pos hid]
    simp
    intro _
    exact hx
  · rw [if_neg hid]
    simp [hid]

lemma find_closeW_none (l : List Withdrawal) (wid : ℕ) (x : WStatus)
    (hx : x ≠ WStatus.pending) :
    (closeW l wid x).find?
      (fun w => decide (w.withdrawal_id = wid ∧ w.status = WStatus.pending)) = none := by
  rw [List.find?_eq_none]
  intro q hq
  unfold closeW at hq
  obtain ⟨a, _, rfl⟩ := List.mem_map.1 hq
  by_cases hid : a.withdrawal_id = wid
  · rw [if_pos hid]
    simp
    intro _
    exact hx
  · rw [if_neg hid]
    simp [hid]

/-! ### The reachable-state well-formedness invariant -/

structure Wf (st : St) : Prop where
  subIdLt : ∀ s ∈ st.submissions, s.submission_id < st.nextSubId
  wIdLt : ∀ w ∈ st.withdrawals, w.withdrawal_id < st.nextWId
  subIdNodup : (st.submissions.map Submission.submission_id).Nodup
  subUser : ∀ s ∈ st.submissions, (getUser st s.user_id).isSome = true
  pendingCount : ∀ uid u, getUser st uid = some u →
      u.pending_tasks = (userPendingCount st uid : ℤ)
  atMostOne : ∀ uid tid, pendingSubCount st uid tid ≤ 1
  draftClear : ∀ uid u tid, getUser st uid = some u → u.pending_submission = some tid →
      pendingSubCount st uid tid = 0

lemma isSome_getUser_updateUser (st : St) (uid : ℕ) (f : User → User) (v : ℕ) :
    (getUser (updateUser st uid f) v).isSome = (getUser st v).isSome := by
  rw [getUser_updateUser]
  by_cases hv : v = uid
  · rw [if_pos hv]
    cases getUser st v <;> simp
  · rw [if_neg hv]

lemma subIdLt_of_map_eq (st : St) (l2 : List Submission)
    (hmap : l2.map Submission.submission_id = st.submissions.map Submission.submission_id)
    (h : ∀ s ∈ st.submissions, s.submission_id < st.nextSubId) :
    ∀ s ∈ l2, s.submission_id < st.nextSubId := by
  intro s hs
  have hm : s.submission_id ∈ st.submissions.map Submission.submission_id := by
    rw [← hmap]
    exact List.mem_map_of_mem _ hs
  obtain ⟨s2, hs2, he⟩ := List.mem_map.1 hm
  rw [← he]
  exact h s2 hs2

lemma wIdLt_of_map_eq (st : St) (l2 : List Withdrawal)
    (hmap : l2.map Withdrawal.withdrawal_id = st.withdrawals.map Withdrawal.withdrawal_id)
    (h : ∀ w ∈ st.withdrawals, w.withdrawal_id < st.nextWId) :
    ∀ w ∈ l2, w.withdrawal_id < st.nextWId := by
  intro w hw
  have hm : w.withdrawal_id ∈ st.withdrawals.map Withdrawal.withdrawal_id := by
    rw [← hmap]
    exact List.mem_map_of_mem _ hw
  obtain ⟨w2, hw2, he⟩ := List.mem_map.1 hm
  rw [← he]
  exact h w2 hw2

lemma closeSub_mem_user (l : List Submission) (sid : ℕ) (x : SubStatus) (q : Submission)
    (hq : q ∈ closeSub l sid x) : ∃ a ∈ l, q.user_id = a.user_id := by
  unfold closeSub at hq
  obtain ⟨a, ha, rfl⟩ := List.mem_map.1 hq
  exact ⟨a, ha, by by_cases h : a.submission_id = sid <;> simp [h]⟩

/-- Frame rule: a step that leaves the users list, the submissions list,
the withdrawal ids and both id counters alone preserves well-formedness. -/
lemma wf_tables (st st2 : St)
    (hsubs : st2.submissions = st.submissions)
    (hwid : st2.withdrawals.map Withdrawal.withdrawal_id = st.withdrawals.map Withdrawal.withdrawal_id)
    (hns : st2.nextSubId = st.nextSubId) (hnw : st2.nextWId = st.nextWId)
    (husers : st2.users = st.users) (h : Wf st) : Wf st2 := by
  have hget : ∀ v, getUser st2 v = getUser st v := by
    intro v
    unfold getUser
    rw [husers]
  refine ⟨?_, ?_, ?_, ?_, ?_, ?_, ?_⟩
  · rw [hsubs, hns]
    exact h.subIdLt
  · rw [hnw]
    exact wIdLt_of_map_eq st _ hwid h.wIdLt
  · rw [hsubs]
    exact h.subIdNodup
  · rw [hsubs]
    intro s hs
    rw [hget]
    exact h.subUser s hs
  · intro uid u hu
    rw [hget] at hu
    unfold userPendingCount
    rw [hsubs]
    exact h.pendingCount uid u hu
  · intro uid tid
    unfold pendingSubCount
    rw [hsubs]
    exact h.atMostOne uid tid
  · intro uid u tid hu hps
    rw [hget] at hu
    unfold pendingSubCount
    rw [hsubs]
    exact h.draftClear uid u tid hu hps

/-- Frame rule: updating one user's row with a function that preserves
the pending_tasks counter and the submission draft, over a state that
shares users, submissions and withdrawal ids with st, preserves
well-formedness. -/
lemma wf_userfields (st st1 : St) (uid : ℕ) (f : User → User)
    (hsubs : st1.submissions = st.submissions)
    (hwid : st1.withdrawals.map Withdrawal.withdrawal_id = st.withdrawals.map Withdrawal.withdrawal_id)
    (hns : st1.nextSubId = st.nextSubId) (hnw : st1.nextWId = st.nextWId)
    (husers : st1.users = st.users)
    (hf_pt : ∀ u, (f u).pending_tasks = u.pending_tasks)
    (hf_ps : ∀ u, (f u).pending_submission = u.pending_submission)
    (h : Wf st) : Wf (updateUser st1 uid f) := by
  have hget1 : ∀ v, getUser st1 v = getUser st v := by
    intro v
    unfold getUser
    rw [husers]
  have hget : ∀ v, getUser (updateUser st1 uid f) v =
      if v = uid then (getUser st v).map f else getUser st v := by
    intro v
    rw [getUser_updateUser, hget1]
  refine ⟨?_, ?_, ?_, ?_, ?_, ?_, ?_⟩
  · rw [updateUser_submissions, hsubs, updateUser_nextSubId, hns]
    exact h.subIdLt
  · rw [updateUser_withdrawals, updateUser_nextWId, hnw]
    exact wIdLt_of_map_eq st _ hwid h.wIdLt
  · rw [updateUser_submissions, hsubs]
    exact h.subIdNodup
  · rw [updateUser_submissions, hsubs]
    intro s hs
    rw [hget]
    by_cases hv : s.user_id = uid
    · rw [if_pos hv]
      have := h.subUser s hs
      cases hgu : getUser st s.user_id with
      | none => rw [hgu] at this; simp at this
      | some u => simp
    · rw [if_neg hv]
      exact h.subUser s hs
  · intro v u hu
    rw [hget] at hu
    have hsubs2 : (updateUser st1 uid f).submissions = st.submissions := by
      rw [updateUser_submissions, hsubs]
    unfold userPendingCount
    rw [hsubs2]
    by_cases hv : v = uid
    · rw [if_pos hv] at hu
      cases hgu : getUser st v with
      | none => rw [hgu] at hu; simp at hu
      | some u0 =>
        rw [hgu] at hu
        simp at hu
        rw [← hu, hf_pt]
        exact h.pendingCount v u0 hgu
    · rw [if_neg hv] at hu
      exact h.pendingCount v u hu
  · intro v tid
    unfold pendingSubCount
    rw [updateUser_submissions, hsubs]
    exact h.atMostOne v tid
  · intro v u tid hu hps
    rw [hget] at hu
    unfold pendingSubCount
    rw [updateUser_submissions, hsubs]
    by_cases hv : v = uid
    · rw [if_pos hv] at hu
      cases hgu : getUser st v with
      | none => rw [hgu] at hu; simp at hu
      | some u0 =>
        rw [hgu] at hu
        simp at hu
        rw [← hu, hf_ps] at hps
        exact h.draftClear v u0 tid hgu hps
    · rw [if_neg hv] at hu
      exact h.draftClear v u tid hu hps

lemma wf_log (st : St) (uid : ℕ) (ty : TxType) (a b c : ℚ) (h : Wf st) :
    Wf (log_transaction st uid ty a b c) :=
  wf_tables st _ rfl rfl rfl rfl rfl h

lemma wf_start (st : St) (uid : ℕ) (h : Wf st) : Wf (start st uid) := by
  unfold start
  cases hgu : getUser st uid with
  | some u => exact h
  | none =>
    have hget : ∀ v, getUser { st with users := st.users ++ [(uid, blankUser)] } v =
        (getUser st v).or (if uid = v then some blankUser else none) := by
      intro v
      show lookupUser (st.users ++ [(uid, blankUser)]) v = _
      rw [lookupUser_append]
      rfl
    refine ⟨h.subIdLt, h.wIdLt, h.subIdNodup, ?_, ?_, h.atMostOne, ?_⟩
    · intro s hs
      rw [hget]
      have hss := h.subUser s hs
      cases hgu2 : getUser st s.user_id with
      | none => rw [hgu2] at hss; simp at hss
      | some u2 => simp
    · intro v u hu
      rw [hget] at hu
      show u.pending_tasks = (userPendingCount st v : ℤ)
      cases hgu2 : getUser st v with
      | some u0 =>
        rw [hgu2] at hu
        simp at hu
        rw [← hu]
        exact h.pendingCount v u0 hgu2
      | none =>
        rw [hgu2] at hu
        simp at hu
        obtain ⟨hv, hub⟩ := hu
        have hcount : userPendingCount st v = 0 := by
          apply List.countP_eq_zero.2
          intro s hs hdec
          have hd := of_decide_eq_true hdec
          have hss := h.subUser s hs
          rw [hd.1, hgu2] at hss
          simp at hss
        rw [hcount, ← hub]
        simp [blankUser]
    · intro v u tid hu hps
      rw [hget] at hu
      show pendingSubCount st v tid = 0
      cases hgu2 : getUser st v with
      | some u0 =>
        rw [hgu2] at hu
        simp at hu
        rw [← hu] at hps
        exact h.draftClear v u0 tid hgu2 hps
      | none =>
        rw [hgu2] at hu
        simp at hu
        obtain ⟨hv, hub⟩ := hu
        rw [← hub] at hps
        simp [blankUser] at hps

/-- Updating one user row with a function that keeps pending_tasks and
either keeps the submission draft or only sets it when no pending pair
exists, preserves well-formedness. -/
lemma wf_userdraft (st : St) (uid : ℕ) (f : User → User)
    (hf_pt : ∀ u, (f u).pending_tasks = u.pending_tasks)
    (hdraft : ∀ u0 tid, getUser st uid = some u0 → (f u0).pending_submission = some tid →
        pendingSubCount st uid tid = 0)
    (h : Wf st) : Wf (updateUser st uid f) := by
  have hget : ∀ v, getUser (updateUser st uid f) v =
      if v = uid then (getUser st v).map f else getUser st v := by
    intro v
    rw [getUser_updateUser]
  refine ⟨h.subIdLt, h.wIdLt, h.subIdNodup, ?_, ?_, h.atMostOne, ?_⟩
  · intro s hs
    rw [updateUser_submissions] at hs
    rw [isSome_getUser_updateUser]
    exact h.subUser s hs
  · intro v u hu
    rw [hget] at hu
    show u.pending_tasks = (userPendingCount st v : ℤ)
    by_cases hv : v = uid
    · rw [if_pos hv] at hu
      cases hgu : getUser st v with
      | none => rw [hgu] at hu; simp at hu
      | some u0 =>
        rw [hgu] at hu
        simp at hu
        rw [← hu, hf_pt]
        exact h.pendingCount v u0 hgu
    · rw [if_neg hv] at hu
      exact h.pendingCount v u hu
  · intro v u tid hu hps
    rw [hget] at hu
    show pendingSubCount st v tid = 0
    by_cases hv : v = uid
    · rw [if_pos hv] at hu
      cases hgu : getUser st v with
      | none => rw [hgu] at hu; simp at hu
      | some u0 =>
        rw [hgu] at hu
        simp at hu
        rw [hv] at hgu ⊢
        exact hdraft u0 tid hgu (by rw [hu]; exact hps)
    · rw [if_neg hv] at hu
      exact h.draftClear v u tid hu hps

lemma newSub_count_user (n uid tid v : ℕ) :
    ([(⟨n, uid, tid, SubStatus.pending⟩ : Submission)].countP
      (fun s => decide (s.user_id = v ∧ s.status = SubStatus.pending)))
    = if uid = v then 1 else 0 := by
  by_cases h : uid = v <;> simp [List.countP_cons, h]

lemma newSub_count_pair (n uid tid v t2 : ℕ) :
    ([(⟨n, uid, tid, SubStatus.pending⟩ : Submission)].countP
      (fun s => decide (s.user_id = v ∧ s.task_id = t2 ∧ s.status = SubStatus.pending)))
    = if uid = v ∧ tid = t2 then 1 else 0 := by
  by_cases h1 : uid = v <;> by_cases h2 : tid = t2 <;>
    simp [List.countP_cons, h1, h2]

lemma wf_screenshot (st : St) (uid tid : ℕ) (u : User)
    (hu : getUser st uid = some u) (hps : u.pending_submission = some tid)
    (h : Wf st) :
    Wf (updateUser
      { st with submissions := st.submissions ++ [⟨st.nextSubId, uid, tid, .pending⟩],
                nextSubId := st.nextSubId + 1 } uid
      (fun v => { v with pending_tasks := v.pending_tasks + 1, pending_submission := none })) := by
  have hget : ∀ v, getUser (updateUser
      { st with submissions := st.submissions ++ [⟨st.nextSubId, uid, tid, .pending⟩],
                nextSubId := st.nextSubId + 1 } uid
      (fun v => { v with pending_tasks := v.pending_tasks + 1, pending_submission := none })) v =
      if v = uid then (getUser st v).map
        (fun v => { v with pending_tasks := v.pending_tasks + 1, pending_submission := none })
      else getUser st v := by
    intro v
    rw [getUser_updateUser]
    rfl
  refine ⟨?_, h.wIdLt, ?_, ?_, ?_, ?_, ?_⟩
  · show ∀ s ∈ st.submissions ++ [(⟨st.nextSubId, uid, tid, .pending⟩ : Submission)],
      s.submission_id < st.nextSubId + 1
    intro s hs
    rcases List.mem_append.1 hs with hl | hr
    · exact Nat.lt_succ_of_lt (h.subIdLt s hl)
    · rw [List.mem_singleton.1 hr]
      exact Nat.lt_succ_self _
  · show ((st.submissions ++ [(⟨st.nextSubId, uid, tid, .pending⟩ : Submission)]).map
      Submission.submission_id).Nodup
    rw [List.map_append, List.nodup_append]
    refine ⟨h.subIdNodup, by simp, ?_⟩
    intro a ha hb
    simp only [List.map_cons, List.map_nil, List.mem_singleton] at hb
    obtain ⟨s2, hs2, he⟩ := List.mem_map.1 ha
    have hlt := h.subIdLt s2 hs2
    rw [he, hb] at hlt
    exact absurd hlt (lt_irrefl _)
  · show ∀ s ∈ st.submissions ++ [(⟨st.nextSubId, uid, tid, .pending⟩ : Submission)], _
    intro s hs
    rw [isSome_getUser_updateUser]
    show (getUser st s.user_id).isSome = true
    rcases List.mem_append.1 hs with hl | hr
    · exact h.subUser s hl
    · rw [List.mem_singleton.1 hr]
      show (getUser st uid).isSome = true
      rw [hu]
      rfl
  · intro v u2 hu2
    rw [hget] at hu2
    show u2.pending_tasks = (((st.submissions ++
      [(⟨st.nextSubId, uid, tid, .pending⟩ : Submission)]).countP
      (fun s => decide (s.user_id = v ∧ s.status = SubStatus.pending)) : ℕ) : ℤ)
    rw [List.countP_append, newSub_count_user]
    by_cases hv : v = uid
    · subst hv
      rw [hu] at hu2
      simp only [Option.map_some'] at hu2
      injection hu2 with hu2
      rw [← hu2]
      have hpc := h.pendingCount v u hu
      unfold userPendingCount at hpc
      rw [if_pos rfl]
      push_cast
      omega
    · rw [if_neg hv] at hu2
      rw [if_neg (fun hc => hv hc.symm)]
      have hpc := h.pendingCount v u2 hu2
      unfold userPendingCount at hpc
      omega
  · intro v t2
    show ((st.submissions ++ [(⟨st.nextSubId, uid, tid, .pending⟩ : Submission)]).countP
      (fun s => decide (s.user_id = v ∧ s.task_id = t2 ∧ s.status = SubStatus.pending))) ≤ 1
    rw [List.countP_append, newSub_count_pair]
    by_cases hv : uid = v ∧ tid = t2
    · have hzero : pendingSubCount st v t2 = 0 := by
        rw [← hv.1, ← hv.2]
        exact h.draftClear uid u tid hu hps
      unfold pendingSubCount at hzero
      rw [hzero, if_pos hv]
    · rw [if_neg hv]
      have hle := h.atMostOne v t2
      unfold pendingSubCount at hle
      omega
  · intro v u2 t2 hu2 hps2
    rw [hget] at hu2
    show ((st.submissions ++ [(⟨st.nextSubId, uid, tid, .pending⟩ : Submission)]).countP
      (fun s => decide (s.user_id = v ∧ s.task_id = t2 ∧ s.status = SubStatus.pending))) = 0
    by_cases hv : v = uid
    · rw [if_pos hv] at hu2
      subst hv
      rw [hu] at hu2
      simp only [Option.map_some'] at hu2
      injection hu2 with hu2
      rw [← hu2] at hps2
      simp at hps2
    · rw [if_neg hv] at hu2
      rw [List.countP_append, newSub_count_pair,
        if_neg (fun hc => hv hc.1.symm)]
      have hz := h.draftClear v u2 t2 hu2 hps2
      unfold pendingSubCount at hz
      omega

lemma wf_close_decrement (st : St) (sid : ℕ) (s : Submission) (x : SubStatus)
    (hx : x ≠ SubStatus.pending)
    (hs : findPendingSub st sid = some s)
    (f : User → User)
    (hf_pt : ∀ v, (f v).pending_tasks = v.pending_tasks - 1)
    (hf_ps : ∀ v, (f v).pending_submission = v.pending_submission)
    (h : Wf st) :
    Wf (updateUser { st with submissions := closeSub st.submissions sid x } s.user_id f) := by
  have hs2 : st.submissions.find?
      (fun q => decide (q.submission_id = sid ∧ q.status = SubStatus.pending)) = some s := hs
  have hprops : s.submission_id = sid ∧ s.status = SubStatus.pending := by
    have hp := List.find?_some hs2
    simpa using hp
  have hmem : s ∈ st.submissions := List.mem_of_find?_eq_some hs2
  have hget : ∀ v, getUser (updateUser
      { st with submissions := closeSub st.submissions sid x } s.user_id f) v =
      if v = s.user_id then (getUser st v).map f else getUser st v := by
    intro v
    rw [getUser_updateUser]
    rfl
  refine ⟨?_, h.wIdLt, ?_, ?_, ?_, ?_, ?_⟩
  · show ∀ q ∈ closeSub st.submissions sid x, q.submission_id < st.nextSubId
    exact subIdLt_of_map_eq st _ (closeSub_map_id _ _ _) h.subIdLt
  · show ((closeSub st.submissions sid x).map Submission.submission_id).Nodup
    rw [closeSub_map_id]
    exact h.subIdNodup
  · show ∀ q ∈ closeSub st.submissions sid x, _
    intro q hq
    rw [isSome_getUser_updateUser]
    show (getUser st q.user_id).isSome = true
    obtain ⟨a, ha, he⟩ := closeSub_mem_user _ _ _ q hq
    rw [he]
    exact h.subUser a ha
  · intro v u2 hu2
    rw [hget] at hu2
    show u2.pending_tasks = (((closeSub st.submissions sid x).countP
      (fun q => decide (q.user_id = v ∧ q.status = SubStatus.pending)) : ℕ) : ℤ)
    have hcnt := countP_closeSub_found st.submissions sid x hx h.subIdNodup s hs2
      (fun q => decide (q.user_id = v ∧ q.status = SubStatus.pending))
      (fun q hq => (of_decide_eq_true hq).2)
    by_cases hv : v = s.user_id
    · rw [if_pos hv] at hu2
      cases hgu : getUser st v with
      | none => rw [hgu] at hu2; simp at hu2
      | some u0 =>
        rw [hgu] at hu2
        simp only [Option.map_some'] at hu2
        injection hu2 with hu2
        rw [← hu2, hf_pt]
        have hps : (decide (s.user_id = v ∧ s.status = SubStatus.pending)) = true := by
          rw [decide_eq_true_eq]
          exact ⟨hv.symm, hprops.2⟩
        simp only [hps, if_true] at hcnt
        have hpc := h.pendingCount v u0 hgu
        unfold userPendingCount at hpc
        omega
    · rw [if_neg hv] at hu2
      have hps : (decide (s.user_id = v ∧ s.status = SubStatus.pending)) = false := by
        rw [decide_eq_false_iff_not]
        exact fun hc => hv hc.1.symm
      simp only [hps, Bool.false_eq_true, if_false] at hcnt
      have hpc := h.pendingCount v u2 hu2
      unfold userPendingCount at hpc
      omega
  · intro v t2
    show ((closeSub st.submissions sid x).countP
      (fun q => decide (q.user_id = v ∧ q.task_id = t2 ∧ q.status = SubStatus.pending))) ≤ 1
    have hle := countP_closeSub_le st.submissions sid x hx
      (fun q => decide (q.user_id = v ∧ q.task_id = t2 ∧ q.status = SubStatus.pending))
      (fun q hq => (of_decide_eq_true hq).2.2)
    have ham := h.atMostOne v t2
    unfold pendingSubCount at ham
    omega
  · intro v u2 t2 hu2 hps2
    rw [hget] at hu2
    show ((closeSub st.submissions sid x).countP
      (fun q => decide (q.user_id = v ∧ q.task_id = t2 ∧ q.status = SubStatus.pending))) = 0
    have hle := countP_closeSub_le st.submissions sid x hx
      (fun q => decide (q.user_id = v ∧ q.task_id = t2 ∧ q.status = SubStatus.pending))
      (fun q hq => (of_decide_eq_true hq).2.2)
    by_cases hv : v = s.user_id
    · rw [if_pos hv] at hu2
      cases hgu : getUser st v with
      | none => rw [hgu] at hu2; simp at hu2
      | some u0 =>
        rw [hgu] at hu2
        simp only [Option.map_some'] at hu2
        injection hu2 with hu2
        rw [← hu2, hf_ps] at hps2
        have hz := h.draftClear v u0 t2 hgu hps2
        unfold pendingSubCount at hz
        omega
    · rw [if_neg hv] at hu2
      have hz := h.draftClear v u2 t2 hu2 hps2
      unfold pendingSubCount at hz
      omega

lemma wf_wdetails (st : St) (uid : ℕ) (f : User → User) (w : Withdrawal)
    (hwid : w.withdrawal_id = st.nextWId)
    (hf_pt : ∀ u, (f u).pending_tasks = u.pending_tasks)
    (hf_ps : ∀ u, (f u).pending_submission = u.pending_submission)
    (h : Wf st) :
    Wf (updateUser { st with withdrawals := st.withdrawals ++ [w],
                             nextWId := st.nextWId + 1 } uid f) := by
  have hsub : Wf (updateUser st uid f) :=
    wf_userfields st st uid f rfl rfl rfl rfl rfl hf_pt hf_ps h
  refine ⟨hsub.subIdLt, ?_, hsub.subIdNodup, hsub.subUser, hsub.pendingCount,
    hsub.atMostOne, hsub.draftClear⟩
  show ∀ q ∈ st.withdrawals ++ [w], q.withdrawal_id < st.nextWId + 1
  intro q hq
  rcases List.mem_append.1 hq with hl | hr
  · exact Nat.lt_succ_of_lt (h.wIdLt q hl)
  · rw [List.mem_singleton.1 hr, hwid]
    exact Nat.lt_succ_self _

lemma wf_step (st : St) (op : Op) (h : Wf st) : Wf (step st op) := by
  cases op with
  | start uid => exact wf_start st uid h
  | verifyIp uid ip now =>
    show Wf (verify_user_ip st uid ip now).2
    unfold verify_user_ip
    cases hip : findIp st ip with
    | some r =>
      try dsimp only
      by_cases hr : r.user_id ≠ uid
      · rw [if_pos hr]
        exact h
      · rw [if_neg hr]
        exact wf_userfields st _ uid _ rfl rfl rfl rfl rfl
          (fun u => rfl) (fun u => rfl) h
    | none =>
      try dsimp only
      exact wf_userfields st _ uid _ rfl rfl rfl rfl rfl
        (fun u => rfl) (fun u => rfl) h
  | submitTask uid tid =>
    show Wf (submit_task st uid tid).2
    unfold submit_task
    cases hgu : getUser st uid with
    | none => exact h
    | some u =>
      try dsimp only
      by_cases hb : u.is_verified = false ∨ u.is_blocked = true
      · rw [if_pos hb]
        exact h
      · rw [if_neg hb]
        cases findActiveTask st tid with
        | none => exact h
        | some t =>
          try dsimp only
          by_cases hp : st.submissions.any (fun s =>
              decide (s.user_id = uid ∧ s.task_id = tid ∧ s.status = SubStatus.pending))
          · rw [if_pos hp]
            exact h
          · rw [if_neg hp]
            apply wf_userdraft st uid
              (fun v => { v with pending_submission := some tid }) (fun u => rfl) _ h
            intro u0 tid2 hu0 hdr
            simp only at hdr
            injection hdr with hdr
            rw [← hdr]
            apply List.countP_eq_zero.2
            intro s hs hdec
            have hfalse : (st.submissions.any (fun s =>
                decide (s.user_id = uid ∧ s.task_id = tid ∧ s.status = SubStatus.pending))) = false := by
              simpa using hp
            exact (List.any_eq_false.1 hfalse) s hs hdec
  | screenshot uid =>
    show Wf (handle_screenshot st uid).2
    unfold handle_screenshot
    cases hgu : getUser st uid with
    | none => exact h
    | some u =>
      try dsimp only
      cases hps : u.pending_submission with
      | none => exact h
      | some tid =>
        try dsimp only
        by_cases hp : st.submissions.any (fun s =>
            decide (s.user_id = uid ∧ s.task_id = tid ∧ s.status = SubStatus.approved))
        · rw [if_pos hp]
          apply wf_userdraft st uid
            (fun v => { v with pending_submission := none }) (fun u => rfl) _ h
          intro u0 tid2 hu0 hdr
          simp at hdr
        · rw [if_neg hp]
          exact wf_screenshot st uid tid u hgu hps h
  | approveSub sid =>
    show Wf (admin_approve_submission st sid).2
    unfold admin_approve_submission
    cases hs : findPendingSub st sid with
    | none => exact h
    | some s =>
      try dsimp only
      cases ht : findTask st s.task_id with
      | none => exact h
      | some t =>
        try dsimp only
        cases hu : getUser st s.user_id with
        | none => exact h
        | some u =>
          try dsimp only
          apply wf_log
          exact wf_close_decrement st sid s .approved (fun hc => nomatch hc) hs _
            (fun v => rfl) (fun v => rfl) h
  | rejectSub sid =>
    show Wf (admin_reject_submission st sid).2
    unfold admin_reject_submission
    cases hs : findPendingSub st sid with
    | none => exact h
    | some s =>
      try dsimp only
      cases hu : getUser st s.user_id with
      | none => exact h
      | some u =>
        try dsimp only
        exact wf_close_decrement st sid s .rejected (fun hc => nomatch hc) hs _
          (fun v => rfl) (fun v => rfl) h
  | withdrawMethod uid m =>
    exact wf_userfields st st uid _ rfl rfl rfl rfl rfl (fun u => rfl) (fun u => rfl) h
  | withdrawAmount uid amount =>
    show Wf (handle_withdraw_amount st uid amount).2
    unfold handle_withdraw_amount
    cases hgu : getUser st uid with
    | none => exact h
    | some u =>
      try dsimp only
      cases hw : u.wdraft with
      | none => exact h
      | some d =>
        cases d with
        | awaitingAmount m =>
          try dsimp only
          by_cases h1 : amount < methodMin m
          · rw [if_pos h1]
            exact h
          · rw [if_neg h1]
            by_cases h2 : amount > u.balance
            · rw [if_pos h2]
              exact h
            · rw [if_neg h2]
              exact wf_userfields st st uid _ rfl rfl rfl rfl rfl
                (fun u => rfl) (fun u => rfl) h
        | awaitingDetails m a => exact h
  | withdrawDetails uid valid =>
    show Wf (handle_withdraw_details st uid valid).2
    unfold handle_withdraw_details
    cases hgu : getUser st uid with
    | none => exact h
    | some u =>
      try dsimp only
      cases hw : u.wdraft with
      | none => exact h
      | some d =>
        cases d with
        | awaitingAmount m => exact h
        | awaitingDetails m a =>
          try dsimp only
          by_cases hv : valid = false
          · rw [if_pos hv]
            exact h
          · rw [if_neg hv]
            apply wf_log
            exact wf_wdetails st uid _ ⟨st.nextWId, uid, a, m, .pending⟩ rfl
              (fun u => rfl) (fun u => rfl) h
  | approveW wid =>
    show Wf (admin_approve_withdrawal st wid).2
    unfold admin_approve_withdrawal
    cases hw : findPendingW st wid with
    | none => exact h
    | some w =>
      exact wf_tables st _ rfl (closeW_map_id _ _ _) rfl rfl rfl h
  | rejectW wid =>
    show Wf (admin_reject_withdrawal st wid).2
    unfold admin_reject_withdrawal
    cases hw : findPendingW st wid with
    | none => exact h
    | some w =>
      try dsimp only
      cases hu : getUser st w.user_id with
      | none => exact h
      | some u =>
        try dsimp only
        apply wf_log
        exact wf_userfields st _ w.user_id _ rfl (closeW_map_id _ _ _) rfl rfl rfl
          (fun u => rfl) (fun u => rfl) h
  | addPoints uid amount =>
    show Wf (admin_add_points st uid amount).2
    unfold admin_add_points
    cases hu : getUser st uid with
    | none => exact h
    | some u =>
      try dsimp only
      apply wf_log
      exact wf_userfields st st uid _ rfl rfl rfl rfl rfl
        (fun u => rfl) (fun u => rfl) h
  | deductPoints uid amount =>
    show Wf (admin_deduct_points st uid amount).2
    unfold admin_deduct_points
    cases hu : getUser st uid with
    | none => exact h
    | some u =>
      try dsimp only
      by_cases h1 : u.balance < amount
      · rw [if_pos h1]
        exact h
      · rw [if_neg h1]
        apply wf_log
        exact wf_userfields st st uid _ rfl rfl rfl rfl rfl
          (fun u => rfl) (fun u => rfl) h
  | addTask reward => exact wf_tables st _ rfl rfl rfl rfl rfl h
  | removeTask tid => exact wf_tables st _ rfl rfl rfl rfl rfl h

lemma recon_step (st st1 : St) (hb : Bracket st st1)
    (h : ∀ uid, balanceOf st uid = txSum st uid) :
    ∀ uid, balanceOf st1 uid = txSum st1 uid := by
  intro uid
  rcases hb uid with ⟨hbal, htx⟩ | ⟨tx, htx, _, hb1, hb2, hsgn⟩
  · rw [hbal, h uid]
    unfold txSum
    rw [htx]
  · unfold txSum
    rw [htx, List.map_append, List.sum_append]
    have h0 : ((userTxs st uid).map signedAmount).sum = balanceOf st uid := (h uid).symm
    rw [h0]
    simp only [List.map_cons, List.map_nil, List.sum_cons, List.sum_nil, add_zero]
    rw [hsgn]
    ring

lemma wf_init : Wf initSt := by
  refine ⟨?_, ?_, ?_, ?_, ?_, ?_, ?_⟩
  · intro s hs
    exact absurd hs (List.not_mem_nil s)
  · intro w hw
    exact absurd hw (List.not_mem_nil w)
  · simp [initSt]
  · intro s hs
    exact absurd hs (List.not_mem_nil s)
  · intro uid u hu
    simp [getUser, initSt, lookupUser] at hu
  · intro uid tid
    simp [pendingSubCount, initSt]
  · intro uid u tid hu
    simp [getUser, initSt, lookupUser] at hu

lemma reach_wf (st : St) (h : Reach st) : Wf st := by
  induction h with
  | init => exact wf_init
  | next st op hr ih => exact wf_step st op ih

lemma reach_recon (st : St) (h : Reach st) : ∀ uid, balanceOf st uid = txSum st uid := by
  induction h with
  | init =>
    intro uid
    simp [balanceOf, getUser, initSt, lookupUser, txSum, userTxs]
  | next st op hr ih => exact recon_step st (step st op) (step_bracket st op) ih

/-! ### Equation lemmas for the success paths of the review handlers -/

lemma approve_eq (st : St) (sid : ℕ) (s : Submission) (t : Task) (u : User)
    (hs : findPendingSub st sid = some s)
    (ht : findTask st s.task_id = some t)
    (hu : getUser st s.user_id = some u) :
    admin_approve_submission st sid =
      (.ok, log_transaction (updateUser
        { st with submissions := closeSub st.submissions sid SubStatus.approved } s.user_id
        (fun v => { v with
                      balance := u.balance + t.reward,
                      total_earned := v.total_earned + t.reward,
                      completed_tasks := v.completed_tasks + 1,
                      pending_tasks := v.pending_tasks - 1 }))
        s.user_id TxType.credit t.reward u.balance (u.balance + t.reward)) := by
  unfold admin_approve_submission
  rw [hs]
  dsimp only
  rw [ht, hu]

lemma reject_sub_eq (st : St) (sid : ℕ) (s : Submission) (u : User)
    (hs : findPendingSub st sid = some s)
    (hu : getUser st s.user_id = some u) :
    admin_reject_submission st sid =
      (.ok, updateUser
        { st with submissions := closeSub st.submissions sid SubStatus.rejected } s.user_id
        (fun v => { v with pending_tasks := v.pending_tasks - 1 })) := by
  unfold admin_reject_submission
  rw [hs]
  dsimp only
  rw [hu]

lemma reject_w_eq (st : St) (wid : ℕ) (w : Withdrawal) (u : User)
    (hw : findPendingW st wid = some w)
    (hu : getUser st w.user_id = some u) :
    admin_reject_withdrawal st wid =
      (.ok, log_transaction (updateUser
        { st with withdrawals := closeW st.withdrawals wid WStatus.rejected } w.user_id
        (fun v => { v with balance := u.balance + w.amount }))
        w.user_id TxType.refund w.amount u.balance (u.balance + w.amount)) := by
  unfold admin_reject_withdrawal
  rw [hw]
  dsimp only
  rw [hu]

lemma wdetails_eq (st : St) (uid : ℕ) (u : User) (m : Method) (a : ℚ)
    (hu : getUser st uid = some u)
    (hw : u.wdraft = some (.awaitingDetails m a)) :
    handle_withdraw_details st uid true = (.ok st.nextWId,
      log_transaction (updateUser
        { st with withdrawals := st.withdrawals ++ [⟨st.nextWId, uid, a, m, WStatus.pending⟩],
                  nextWId := st.nextWId + 1 } uid
        (fun v => { v with
                      balance := u.balance - a,
                      total_withdrawn := v.total_withdrawn + a, wdraft := none }))
        uid TxType.withdrawal_request a u.balance (u.balance - a)) := by
  unfold handle_withdraw_details
  rw [hu]
  dsimp only
  rw [hw]
  dsimp only
  rw [if_neg (by simp : ¬ (true = false))]

lemma approve_none (st : St) (sid : ℕ) (hnone : findPendingSub st sid = none) :
    admin_approve_submission st sid = (.notFoundOrProcessed, st) := by
  unfold admin_approve_submission
  rw [hnone]

lemma reject_sub_none (st : St) (sid : ℕ) (hnone : findPendingSub st sid = none) :
    admin_reject_submission st sid = (.notFoundOrProcessed, st) := by
  unfold admin_reject_submission
  rw [hnone]

lemma approve_w_none (st : St) (wid : ℕ) (hnone : findPendingW st wid = none) :
    admin_approve_withdrawal st wid = (.notFoundOrProcessed, st) := by
  unfold admin_approve_withdrawal
  rw [hnone]

lemma reject_w_none (st : St) (wid : ℕ) (hnone : findPendingW st wid = none) :
    admin_reject_withdrawal st wid = (.notFoundOrProcessed, st) := by
  unfold admin_reject_withdrawal
  rw [hnone]

/-! ### Claim theorems -/

/-- C1: for every submission in the pending state (with its task and user
rows present, as the SQL join requires), a first approve call returns ok,
transitions every row with that id to approved, credits the user's balance
by the task reward exactly once (appending exactly one credit transaction
bracketing the change and bumping the counters); a second approve or
reject on the now-terminal submission returns the
"Submission not found or already processed" error and returns the state
completely unchanged. -/
theorem C1_approve_credits_once (st : St) (sid : ℕ) (s : Submission) (t : Task) (u : User)
    (hs : findPendingSub st sid = some s)
    (ht : findTask st s.task_id = some t)
    (hu : getUser st s.user_id = some u) :
    (admin_approve_submission st sid).1 = ReviewRes.ok
    ∧ getUser (admin_approve_submission st sid).2 s.user_id = some
        { u with balance := u.balance + t.reward,
                 total_earned := u.total_earned + t.reward,
                 completed_tasks := u.completed_tasks + 1,
                 pending_tasks := u.pending_tasks - 1 }
    ∧ (admin_approve_submission st sid).2.transactions = st.transactions ++
        [⟨s.user_id, TxType.credit, t.reward, u.balance, u.balance + t.reward⟩]
    ∧ (∀ q ∈ (admin_approve_submission st sid).2.submissions,
        q.submission_id = sid → q.status = SubStatus.approved)
    ∧ admin_approve_submission (admin_approve_submission st sid).2 sid
        = (ReviewRes.notFoundOrProcessed, (admin_approve_submission st sid).2)
    ∧ admin_reject_submission (admin_approve_submission st sid).2 sid
        = (ReviewRes.notFoundOrProcessed, (admin_approve_submission st sid).2) := by
  have heq := approve_eq st sid s t u hs ht hu
  rw [heq]
  dsimp only
  refine ⟨rfl, ?_, rfl, ?_, ?_, ?_⟩
  · rw [getUser_log, getUser_updateUser, if_pos rfl]
    show (getUser st s.user_id).map _ = _
    rw [hu]
    rfl
  · intro q hq hqid
    have hq2 : q ∈ closeSub st.submissions sid SubStatus.approved := hq
    unfold closeSub at hq2
    obtain ⟨a2, ha2, rfl⟩ := List.mem_map.1 hq2
    by_cases hid : a2.submission_id = sid
    · rw [if_pos hid]
    · rw [if_neg hid] at hqid ⊢
      exact absurd hqid hid
  · exact approve_none _ sid
      (find_closeSub_none st.submissions sid SubStatus.approved (fun hc => nomatch hc))
  · exact reject_sub_none _ sid
      (find_closeSub_none st.submissions sid SubStatus.approved (fun hc => nomatch hc))

def uC1 : User := { blankUser with balance := 2, pending_tasks := 1, is_verified := true }

def stC1 : St :=
  { users := [(1, uC1)], tasks := [⟨7, 5, true⟩],
    submissions := [⟨3, 1, 7, SubStatus.pending⟩],
    withdrawals := [], transactions := [], ips := [],
    nextSubId := 4, nextWId := 1, nextTaskId := 8 }

/-- C1 witness: the theorem applied to a concrete state with one pending
submission. -/
theorem C1_witness :
    findPendingSub stC1 3 = some ⟨3, 1, 7, SubStatus.pending⟩
    ∧ (admin_approve_submission stC1 3).1 = ReviewRes.ok
    ∧ admin_approve_submission (admin_approve_submission stC1 3).2 3
        = (ReviewRes.notFoundOrProcessed, (admin_approve_submission stC1 3).2) := by
  have h := C1_approve_credits_once stC1 3 ⟨3, 1, 7, SubStatus.pending⟩ ⟨7, 5, true⟩ uC1
    (by decide) (by decide) (by decide)
  exact ⟨by decide, h.1, h.2.2.2.2.1⟩

/-- C5: for every withdrawal in the pending state (with its user row
present), a first reject call returns ok, transitions every row with that
id to rejected, credits the amount back to the balance exactly once with
exactly one refund transaction bracketing the credit; any second
resolution attempt (reject or approve) on the terminal withdrawal returns
the "Withdrawal not found or already processed" error and returns the
state completely unchanged — never a double refund or a completion after
rejection. -/
theorem C5_reject_refunds_once (st : St) (wid : ℕ) (w : Withdrawal) (u : User)
    (hw : findPendingW st wid = some w)
    (hu : getUser st w.user_id = some u) :
    (admin_reject_withdrawal st wid).1 = ReviewRes.ok
    ∧ getUser (admin_reject_withdrawal st wid).2 w.user_id = some
        { u with balance := u.balance + w.amount }
    ∧ (admin_reject_withdrawal st wid).2.transactions = st.transactions ++
        [⟨w.user_id, TxType.refund, w.amount, u.balance, u.balance + w.amount⟩]
    ∧ (∀ q ∈ (admin_reject_withdrawal st wid).2.withdrawals,
        q.withdrawal_id = wid → q.status = WStatus.rejected)
    ∧ admin_reject_withdrawal (admin_reject_withdrawal st wid).2 wid
        = (ReviewRes.notFoundOrProcessed, (admin_reject_withdrawal st wid).2)
    ∧ admin_approve_withdrawal (admin_reject_withdrawal st wid).2 wid
        = (ReviewRes.notFoundOrProcessed, (admin_reject_withdrawal st wid).2) := by
  have heq := reject_w_eq st wid w u hw hu
  rw [heq]
  dsimp only
  refine ⟨rfl, ?_, rfl, ?_, ?_, ?_⟩
  · rw [getUser_log, getUser_updateUser, if_pos rfl]
    show (getUser st w.user_id).map _ = _
    rw [hu]
    rfl
  · intro q hq hqid
    have hq2 : q ∈ closeW st.withdrawals wid WStatus.rejected := hq
    unfold closeW at hq2
    obtain ⟨a2, ha2, rfl⟩ := List.mem_map.1 hq2
    by_cases hid : a2.withdrawal_id = wid
    · rw [if_pos hid]
    · rw [if_neg hid] at hqid ⊢
      exact absurd hqid hid
  · exact reject_w_none _ wid
      (find_closeW_none st.withdrawals wid WStatus.rejected (fun hc => nomatch hc))
  · exact approve_w_none _ wid
      (find_closeW_none st.withdrawals wid WStatus.rejected (fun hc => nomatch hc))

def uC5 : User := { blankUser with balance := 3, is_verified := true, total_withdrawn := 10 }

def stC5 : St :=
  { users := [(2, uC5)], tasks := [],
    submissions := [],
    withdrawals := [⟨4, 2, 10, Method.upi, WStatus.pending⟩],
    transactions := [], ips := [],
    nextSubId := 1, nextWId := 5, nextTaskId := 1 }

/-- C5 witness: the theorem applied to a concrete state with one pending
withdrawal. -/
theorem C5_witness :
    findPendingW stC5 4 = some ⟨4, 2, 10, Method.upi, WStatus.pending⟩
    ∧ (admin_reject_withdrawal stC5 4).1 = ReviewRes.ok
    ∧ admin_reject_withdrawal (admin_reject_withdrawal stC5 4).2 4
        = (ReviewRes.notFoundOrProcessed, (admin_reject_withdrawal stC5 4).2)
    ∧ admin_approve_withdrawal (admin_reject_withdrawal stC5 4).2 4
        = (ReviewRes.notFoundOrProcessed, (admin_reject_withdrawal stC5 4).2) := by
  have h := C5_reject_refunds_once stC5 4 ⟨4, 2, 10, Method.upi, WStatus.pending⟩ uC5
    (by decide) (by decide)
  exact ⟨by decide, h.1, h.2.2.2.2.1, h.2.2.2.2.2⟩

/-- C3: for every user whose withdrawal conversation has reached the
account-details stage with drafted method m and amount a, a successful
details submission immediately — before any operator review — deducts
exactly a from the balance, adds exactly a to total_withdrawn, creates a
withdrawal row in state pending, and logs exactly one
withdrawal_request transaction whose before/after bracket the deduction;
submissions and tasks are untouched. -/
theorem C3_hold_correctness (st : St) (uid : ℕ) (u : User) (m : Method) (a : ℚ)
    (hu : getUser st uid = some u)
    (hw : u.wdraft = some (.awaitingDetails m a)) :
    (handle_withdraw_details st uid true).1 = DetailsRes.ok st.nextWId
    ∧ getUser (handle_withdraw_details st uid true).2 uid = some
        { u with balance := u.balance - a,
                 total_withdrawn := u.total_withdrawn + a, wdraft := none }
    ∧ (handle_withdraw_details st uid true).2.withdrawals = st.withdrawals ++
        [⟨st.nextWId, uid, a, m, WStatus.pending⟩]
    ∧ (handle_withdraw_details st uid true).2.transactions = st.transactions ++
        [⟨uid, TxType.withdrawal_request, a, u.balance, u.balance - a⟩]
    ∧ (handle_withdraw_details st uid true).2.submissions = st.submissions
    ∧ (handle_withdraw_details st uid true).2.tasks = st.tasks := by
  have heq := wdetails_eq st uid u m a hu hw
  rw [heq]
  dsimp only
  refine ⟨rfl, ?_, rfl, rfl, rfl, rfl⟩
  rw [getUser_log, getUser_updateUser, if_pos rfl]
  show (getUser st uid).map _ = _
  rw [hu]
  rfl

def uC3 : User :=
  { blankUser with
      balance := 10, is_verified := true,
      wdraft := some (.awaitingDetails Method.upi 10) }

def stC3 : St :=
  { users := [(1, uC3)], tasks := [], submissions := [], withdrawals := [],
    transactions := [], ips := [],
    nextSubId := 1, nextWId := 1, nextTaskId := 1 }

/-- C3 witness: the theorem applied to a concrete drafted withdrawal of
the full balance. -/
theorem C3_witness :
    getUser stC3 1 = some uC3
    ∧ (handle_withdraw_details stC3 1 true).1 = DetailsRes.ok 1
    ∧ (handle_withdraw_details stC3 1 true).2.withdrawals =
        [⟨1, 1, 10, Method.upi, WStatus.pending⟩] := by
  have h := C3_hold_correctness stC3 1 uC3 Method.upi 10 (by decide) (by decide)
  refine ⟨by decide, h.1, ?_⟩
  rw [h.2.2.1]
  rfl

/-- C10: rejecting the withdrawal just created by a request refunds the
held amount back to the balance but does not decrement total_withdrawn:
after a successful request of amount a followed by its rejection the user
row equals the original except that total_withdrawn is a higher and the
withdrawal draft is consumed (balance is exactly restored); the two
operations together mutate only the user's balance fields, the
withdrawals table and the transaction log — submissions, tasks and the
address table are untouched — and every row of the new withdrawal id is
rejected. -/
theorem C10_reject_keeps_total_withdrawn (st : St) (uid : ℕ) (u : User) (m : Method) (a : ℚ)
    (hu : getUser st uid = some u)
    (hw : u.wdraft = some (.awaitingDetails m a))
    (hlt : ∀ q ∈ st.withdrawals, q.withdrawal_id < st.nextWId) :
    (admin_reject_withdrawal (handle_withdraw_details st uid true).2 st.nextWId).1
      = ReviewRes.ok
    ∧ getUser (admin_reject_withdrawal (handle_withdraw_details st uid true).2 st.nextWId).2 uid
        = some { u with total_withdrawn := u.total_withdrawn + a, wdraft := none }
    ∧ balanceOf (admin_reject_withdrawal (handle_withdraw_details st uid true).2 st.nextWId).2 uid
        = u.balance
    ∧ (admin_reject_withdrawal (handle_withdraw_details st uid true).2 st.nextWId).2.transactions
        = st.transactions ++
          [⟨uid, TxType.withdrawal_request, a, u.balance, u.balance - a⟩,
           ⟨uid, TxType.refund, a, u.balance - a, u.balance⟩]
    ∧ (admin_reject_withdrawal (handle_withdraw_details st uid true).2 st.nextWId).2.submissions
        = st.submissions
    ∧ (admin_reject_withdrawal (handle_withdraw_details st uid true).2 st.nextWId).2.tasks
        = st.tasks
    ∧ (admin_reject_withdrawal (handle_withdraw_details st uid true).2 st.nextWId).2.ips
        = st.ips
    ∧ (∀ q ∈ (admin_reject_withdrawal (handle_withdraw_details st uid true).2 st.nextWId).2.withdrawals,
        q.withdrawal_id = st.nextWId → q.status = WStatus.rejected) := by
  have heq := wdetails_eq st uid u m a hu hw
  have e1 : (handle_withdraw_details st uid true).2.withdrawals =
      st.withdrawals ++ [⟨st.nextWId, uid, a, m, WStatus.pending⟩] := by
    rw [heq]
    rfl
  have e2 : getUser (handle_withdraw_details st uid true).2 uid = some
      { u with balance := u.balance - a,
               total_withdrawn := u.total_withdrawn + a, wdraft := none } := by
    rw [heq]
    dsimp only
    rw [getUser_log, getUser_updateUser, if_pos rfl]
    show (getUser st uid).map _ = _
    rw [hu]
    rfl
  have e3 : (handle_withdraw_details st uid true).2.transactions = st.transactions ++
      [⟨uid, TxType.withdrawal_request, a, u.balance, u.balance - a⟩] := by
    rw [heq]
    rfl
  have e4 : (handle_withdraw_details st uid true).2.submissions = st.submissions := by
    rw [heq]
    rfl
  have e5 : (handle_withdraw_details st uid true).2.tasks = st.tasks := by
    rw [heq]
    rfl
  have e6 : (handle_withdraw_details st uid true).2.ips = st.ips := by
    rw [heq]
    rfl
  have hfind : findPendingW (handle_withdraw_details st uid true).2 st.nextWId =
      some ⟨st.nextWId, uid, a, m, WStatus.pending⟩ := by
    unfold findPendingW
    rw [e1, List.find?_append]
    have hnone : (st.withdrawals.find? (fun q =>
        decide (q.withdrawal_id = st.nextWId ∧ q.status = WStatus.pending))) = none := by
      rw [List.find?_eq_none]
      intro q hq hdec
      exact absurd (of_decide_eq_true hdec).1 (Nat.ne_of_lt (hlt q hq))
    rw [hnone]
    simp
  have h3 := reject_w_eq ((handle_withdraw_details st uid true).2) st.nextWId
    ⟨st.nextWId, uid, a, m, WStatus.pending⟩
    { u with balance := u.balance - a,
             total_withdrawn := u.total_withdrawn + a, wdraft := none }
    hfind e2
  rw [h3]
  dsimp only
  refine ⟨rfl, ?_, ?_, ?_, e4, e5, e6, ?_⟩
  · rw [getUser_log, getUser_updateUser, if_pos rfl]
    show (getUser (handle_withdraw_details st uid true).2 uid).map _ = _
    rw [e2]
    simp only [Option.map_some', Option.some.injEq]
    rw [sub_add_cancel]
  · rw [balanceOf_eq, getUser_log, getUser_updateUser, if_pos rfl]
    show (((getUser (handle_withdraw_details st uid true).2 uid).map _).map User.balance).getD 0 = _
    rw [e2]
    show u.balance - a + a = u.balance
    rw [sub_add_cancel]
  · show ((handle_withdraw_details st uid true).2.transactions ++ _) = _
    rw [e3, List.append_assoc]
    simp only [List.cons_append, List.nil_append, List.cons.injEq, and_true]
    rw [sub_add_cancel]
  · intro q hq hqid
    have hq2 : q ∈ closeW (handle_withdraw_details st uid true).2.withdrawals
        st.nextWId WStatus.rejected := hq
    unfold closeW at hq2
    obtain ⟨a2, ha2, rfl⟩ := List.mem_map.1 hq2
    by_cases hid : a2.withdrawal_id = st.nextWId
    · rw [if_pos hid]
    · rw [if_neg hid] at hqid ⊢
      exact absurd hqid hid

/-- C10 witness: the composed request-then-reject at a concrete state. -/
theorem C10_witness :
    getUser stC3 1 = some uC3
    ∧ (admin_reject_withdrawal (handle_withdraw_details stC3 1 true).2 1).1 = ReviewRes.ok
    ∧ (admin_reject_withdrawal (handle_withdraw_details stC3 1 true).2 1).2.submissions = []
    ∧ (∀ q ∈ (admin_reject_withdrawal (handle_withdraw_details stC3 1 true).2 1).2.withdrawals,
        q.withdrawal_id = 1 → q.status = WStatus.rejected) := by
  have h := C10_reject_keeps_total_withdrawn stC3 1 uC3 Method.upi 10
    (by decide) (by decide) (by decide)
  exact ⟨by decide, h.1, h.2.2.2.2.1, h.2.2.2.2.2.2.2⟩

/-- C2: reconciliation invariant — in every reachable state every user's
stored balance equals the sum of the signed amounts of that user's
transaction rows, and every single step of the engine either leaves a
user's balance and transaction list unchanged or appends exactly one
transaction whose balance_before/balance_after fields bracket the
mutation. -/
theorem C2_reconciliation (st : St) (h : Reach st) :
    (∀ uid, balanceOf st uid = txSum st uid) ∧ (∀ op, Bracket st (step st op)) :=
  ⟨reach_recon st h, fun op => step_bracket st op⟩

def opsC2 : List Op :=
  [Op.start 1, Op.addPoints 1 10, Op.withdrawMethod 1 Method.gateway,
   Op.withdrawAmount 1 4, Op.withdrawDetails 1 true, Op.deductPoints 1 2]

/-- C2 witness: reconciliation at the state reached by a concrete run
mixing an admin credit, a withdrawal request and an admin debit. -/
theorem C2_witness :
    balanceOf (run opsC2) 1 = txSum (run opsC2) 1
    ∧ Bracket (run opsC2) (step (run opsC2) (Op.addPoints 1 3)) := by
  have h := C2_reconciliation (run opsC2) (reach_run opsC2)
  exact ⟨h.1 1, h.2 (Op.addPoints 1 3)⟩

/-- C7: in every reachable state there is at most one pending submission
per (user, task) pair, and a submit attempt for a pair that already has a
pending submission is rejected at creation: the state is unchanged (no
row created, no counter changed) and the result is not ok — specifically
pendingExists for a verified, unblocked user and an active task. -/
theorem C7_one_pending_per_pair (st : St) (h : Reach st) :
    (∀ uid tid, pendingSubCount st uid tid ≤ 1)
    ∧ (∀ uid tid, 1 ≤ pendingSubCount st uid tid →
        (submit_task st uid tid).2 = st ∧ (submit_task st uid tid).1 ≠ SubmitRes.ok)
    ∧ (∀ uid tid u, getUser st uid = some u → u.is_verified = true → u.is_blocked = false →
        (findActiveTask st tid).isSome = true → 1 ≤ pendingSubCount st uid tid →
        submit_task st uid tid = (SubmitRes.pendingExists, st)) := by
  have hwf := reach_wf st h
  have hany : ∀ uid tid, 1 ≤ pendingSubCount st uid tid →
      st.submissions.any (fun s =>
        decide (s.user_id = uid ∧ s.task_id = tid ∧ s.status = SubStatus.pending)) = true := by
    intro uid tid hcnt
    rw [List.any_eq_true]
    have hpos : 0 < st.submissions.countP (fun s =>
        decide (s.user_id = uid ∧ s.task_id = tid ∧ s.status = SubStatus.pending)) := hcnt
    obtain ⟨s0, hs0, hps0⟩ := List.countP_pos.1 hpos
    exact ⟨s0, hs0, hps0⟩
  refine ⟨hwf.atMostOne, ?_, ?_⟩
  · intro uid tid hcnt
    unfold submit_task
    cases hgu : getUser st uid with
    | none => exact ⟨rfl, fun hc => nomatch hc⟩
    | some u =>
      dsimp only
      by_cases hb : u.is_verified = false ∨ u.is_blocked = true
      · rw [if_pos hb]
        exact ⟨rfl, fun hc => nomatch hc⟩
      · rw [if_neg hb]
        cases hat : findActiveTask st tid with
        | none => exact ⟨rfl, fun hc => nomatch hc⟩
        | some t =>
          dsimp only
          rw [if_pos (hany uid tid hcnt)]
          exact ⟨rfl, fun hc => nomatch hc⟩
  · intro uid tid u hu hver hbl hact hcnt
    unfold submit_task
    rw [hu]
    dsimp only
    rw [if_neg (by rw [hver, hbl]; simp)]
    cases hat : findActiveTask st tid with
    | none => rw [hat] at hact; simp at hact
    | some t =>
      dsimp only
      rw [if_pos (hany uid tid hcnt)]

def opsC7 : List Op :=
  [Op.start 1, Op.verifyIp 1 "addr" 0, Op.addTask 5, Op.submitTask 1 1, Op.screenshot 1]

/-- C7 witness: after a run that creates one pending submission for
(user 1, task 1), a second submit attempt is rejected with no change. -/
theorem C7_witness :
    1 ≤ pendingSubCount (run opsC7) 1 1
    ∧ pendingSubCount (run opsC7) 1 1 ≤ 1
    ∧ (submit_task (run opsC7) 1 1).2 = run opsC7
    ∧ (submit_task (run opsC7) 1 1).1 ≠ SubmitRes.ok := by
  have h := C7_one_pending_per_pair (run opsC7) (reach_run opsC7)
  have h2 := h.2.1 1 1 (by decide)
  exact ⟨by decide, h.1 1 1, h2.1, h2.2⟩

def uC8 : User := { blankUser with pending_tasks := 0, is_verified := true }

def stC8 : St :=
  { users := [(1, uC8)], tasks := [⟨1, 5, true⟩],
    submissions := [⟨1, 1, 1, SubStatus.pending⟩],
    withdrawals := [], transactions := [], ips := [],
    nextSubId := 2, nextWId := 1, nextTaskId := 2 }

/-- C8 counterexample: approving a pending submission of a user whose
pending_tasks counter is already 0 produces -1, not 0 — the code applies
an unconditional decrement with no floor, refuting the claimed clamp. -/
theorem C8_counterexample :
    (getUser (admin_approve_submission stC8 1).2 1).map User.pending_tasks = some (-1) := by
  decide

/-- C8 (amended): the decrement in approve/reject has no floor — applied
to a state whose counter is already 0 it produces -1 — but in every
reachable state a user's pending_tasks equals the number of that user's
pending submissions, so pending_tasks ≥ 0 is preserved by every
operation along reachable executions. -/
theorem C8_amended_pending_tasks_nonneg (st : St) (h : Reach st) :
    ∀ uid u, getUser st uid = some u →
      u.pending_tasks = (userPendingCount st uid : ℤ) ∧ 0 ≤ u.pending_tasks := by
  intro uid u hu
  have hp := (reach_wf st h).pendingCount uid u hu
  refine ⟨hp, ?_⟩
  rw [hp]
  exact Int.natCast_nonneg _

/-- C8 amended witness: the invariant at a concrete reachable state. -/
theorem C8_amended_witness :
    blankUser.pending_tasks = (userPendingCount (run [Op.start 1]) 1 : ℤ)
    ∧ 0 ≤ blankUser.pending_tasks :=
  C8_amended_pending_tasks_nonneg (run [Op.start 1]) (reach_run [Op.start 1]) 1 blankUser
    (by decide)

def uC9 : User := { blankUser with total_earned := 10, balance := 3 }

def stC9 : St :=
  { users := [(1, uC9)], tasks := [], submissions := [], withdrawals := [],
    transactions := [], ips := [],
    nextSubId := 1, nextWId := 1, nextTaskId := 1 }

/-- C9 counterexample: admin_add_points performs no sign check — called
with amount -5 on a user whose total_earned is 10 it decreases
total_earned to 5, refuting monotonicity as claimed. -/
theorem C9_counterexample :
    (getUser (admin_add_points stC9 1 (-5)).2 1).map User.total_earned = some 5
    ∧ (getUser stC9 1).map User.total_earned = some 10 := by
  constructor
  · show some (uC9.total_earned + (-5)) = some 5
    simp only [Option.some.injEq, uC9, blankUser]
    norm_num
  · decide

def opsC4 : List Op :=
  [Op.start 1, Op.addPoints 1 10, Op.withdrawMethod 1 Method.gateway,
   Op.withdrawAmount 1 10, Op.deductPoints 1 10, Op.withdrawDetails 1 true]

def stC4A : St :=
  { users := [(1, blankUser)], tasks := [], submissions := [], withdrawals := [],
    transactions := [], ips := [], nextSubId := 1, nextWId := 1, nextTaskId := 1 }

def uC4B : User := { blankUser with balance := 10, total_earned := 10 }

def stC4B : St :=
  { stC4A with users := [(1, uC4B)],
               transactions := [⟨1, TxType.credit, 10, 0, 10⟩] }

def uC4C : User := { uC4B with wdraft := some (WDraft.awaitingAmount Method.gateway) }

def stC4C : St := { stC4B with users := [(1, uC4C)] }

def uC4D : User := { uC4B with wdraft := some (WDraft.awaitingDetails Method.gateway 10) }

def stC4D : St := { stC4B with users := [(1, uC4D)] }

def uC4E : User := { uC4D with balance := 0 }

def stC4E : St :=
  { stC4D with users := [(1, uC4E)],
               transactions := [⟨1, TxType.credit, 10, 0, 10⟩,
                                ⟨1, TxType.debit, 10, 10, 0⟩] }

def uC4F : User := { uC4E with balance := -10, total_withdrawn := 10, wdraft := none }

def stC4F : St :=
  { stC4E with users := [(1, uC4F)],
               withdrawals := [⟨1, 1, 10, Method.gateway, WStatus.pending⟩],
               nextWId := 2,
               transactions := [⟨1, TxType.credit, 10, 0, 10⟩,
                                ⟨1, TxType.debit, 10, 10, 0⟩,
                                ⟨1, TxType.withdrawal_request, 10, 0, -10⟩] }

/-- C4: the balance check of the withdrawal conversation happens at the
amount step, but the deduction happens later at the details step with no
re-check — an admin debit interleaved between the two drives the balance
to -10, violating the claimed non-negative-balance guarantee: the user
starts with 10, enters a withdrawal amount of 10 (accepted against the
then-current balance), the admin deducts 10, and submitting the account
details still deducts the drafted 10. -/
theorem C4_negative_balance_bug :
    balanceOf (run opsC4) 1 = -10 ∧ balanceOf (run opsC4) 1 < 0 := by
  have h1 : step initSt (Op.start 1) = stC4A := by decide
  have h2 : step stC4A (Op.addPoints 1 10) = stC4B := by
    show (admin_add_points stC4A 1 10).2 = stC4B
    unfold admin_add_points
    rw [show getUser stC4A 1 = some blankUser from by decide]
    dsimp only
    simp [updateUser, updUser, log_transaction, stC4A, stC4B, uC4B, blankUser]
    try norm_num
  have h3 : step stC4B (Op.withdrawMethod 1 Method.gateway) = stC4C := by decide
  have h4 : step stC4C (Op.withdrawAmount 1 10) = stC4D := by decide
  have h5 : step stC4D (Op.deductPoints 1 10) = stC4E := by
    show (admin_deduct_points stC4D 1 10).2 = stC4E
    unfold admin_deduct_points
    rw [show getUser stC4D 1 = some uC4D from by decide]
    dsimp only
    rw [if_neg (by decide)]
    simp [updateUser, updUser, log_transaction, stC4A, stC4B, stC4C, stC4D, stC4E,
      uC4E, uC4D, uC4C, uC4B, blankUser]
    try norm_num
  have h6 : step stC4E (Op.withdrawDetails 1 true) = stC4F := by
    show (handle_withdraw_details stC4E 1 true).2 = stC4F
    rw [wdetails_eq stC4E 1 uC4E Method.gateway 10 (by decide) (by decide)]
    dsimp only
    simp [updateUser, updUser, log_transaction, stC4A, stC4B, stC4C, stC4D, stC4E, stC4F,
      uC4F, uC4E, uC4D, uC4C, uC4B, blankUser]
    try norm_num
  have hrun : run opsC4 = stC4F := by
    show step (step (step (step (step (step initSt (Op.start 1)) (Op.addPoints 1 10))
      (Op.withdrawMethod 1 Method.gateway)) (Op.withdrawAmount 1 10))
      (Op.deductPoints 1 10)) (Op.withdrawDetails 1 true) = stC4F
    rw [h1, h2, h3, h4, h5, h6]
  rw [hrun]
  exact ⟨by decide, by decide⟩

lemma verify_eq_conflict (st : St) (uid : ℕ) (ip : String) (now : ℕ) (r : IpRecord)
    (hr : findIp st ip = some r) (hne : r.user_id ≠ uid) :
    verify_user_ip st uid ip now = (false, st) := by
  unfold verify_user_ip
  rw [hr]
  dsimp only
  rw [if_pos hne]

lemma verify_eq_same (st : St) (uid : ℕ) (ip : String) (now : ℕ) (r : IpRecord)
    (hr : findIp st ip = some r) (hsame : r.user_id = uid) :
    verify_user_ip st uid ip now = (true, updateUser
      { st with ips := st.ips.map (fun q =>
          if q.ip_address = ip then { q with user_id := uid, last_seen := now } else q) }
      uid (fun u => { u with verified_ip := some ip, is_verified := true })) := by
  unfold verify_user_ip
  rw [hr]
  dsimp only
  rw [if_neg (by simp [hsame])]

lemma verify_eq_new (st : St) (uid : ℕ) (ip : String) (now : ℕ)
    (hr : findIp st ip = none) :
    verify_user_ip st uid ip now = (true, updateUser
      { st with ips := st.ips ++ [⟨ip, uid, now, now⟩] }
      uid (fun u => { u with verified_ip := some ip, is_verified := true })) := by
  unfold verify_user_ip
  rw [hr]

lemma ip_map_preserves_key (ip : String) (uid now : ℕ) (q : IpRecord) :
    ((fun q => if q.ip_address = ip then
        ({ q with user_id := uid, last_seen := now } : IpRecord) else q) q).ip_address
      = q.ip_address := by
  by_cases h : q.ip_address = ip <;> simp [h]

/-- C6: a claim of address A by user U is first-writer-wins: when A is
recorded for some V ≠ U the claim returns false and the state is fully
unchanged; when A is unowned the claim succeeds, appends a record binding
A to U with first_seen = last_seen = now, and marks U verified; when U
already owns A the claim succeeds, refreshes only last_seen (first_seen
and owner preserved) and marks U verified; under every outcome an already
recorded address keeps its owner and its first_seen, and distinctness of
recorded addresses is preserved, so an address is owned by at most one
user and ownership is never reassigned. -/
theorem C6_address_first_writer_wins (st : St) (uid : ℕ) (ip : String) (now : ℕ) :
    (∀ r, findIp st ip = some r → r.user_id ≠ uid →
        verify_user_ip st uid ip now = (false, st))
    ∧ (findIp st ip = none →
        (verify_user_ip st uid ip now).1 = true
        ∧ (verify_user_ip st uid ip now).2.ips = st.ips ++ [⟨ip, uid, now, now⟩]
        ∧ getUser (verify_user_ip st uid ip now).2 uid =
            (getUser st uid).map (fun u => { u with verified_ip := some ip, is_verified := true }))
    ∧ (∀ r, findIp st ip = some r → r.user_id = uid →
        (verify_user_ip st uid ip now).1 = true
        ∧ findIp (verify_user_ip st uid ip now).2 ip =
            some { r with user_id := uid, last_seen := now }
        ∧ getUser (verify_user_ip st uid ip now).2 uid =
            (getUser st uid).map (fun u => { u with verified_ip := some ip, is_verified := true }))
    ∧ (∀ ip2 r2, findIp st ip2 = some r2 →
        ∃ r3, findIp (verify_user_ip st uid ip now).2 ip2 = some r3
          ∧ r3.user_id = r2.user_id ∧ r3.first_seen = r2.first_seen)
    ∧ ((st.ips.map IpRecord.ip_address).Nodup →
        ((verify_user_ip st uid ip now).2.ips.map IpRecord.ip_address).Nodup) := by
  have hkeys : ∀ ip2, ((fun q => decide (q.ip_address = ip2)) ∘ (fun q =>
      if q.ip_address = ip then ({ q with user_id := uid, last_seen := now } : IpRecord) else q))
      = (fun q => decide (q.ip_address = ip2)) := by
    intro ip2
    funext q
    simp only [Function.comp]
    rw [ip_map_preserves_key]
  refine ⟨?_, ?_, ?_, ?_, ?_⟩
  · intro r hr hne
    exact verify_eq_conflict st uid ip now r hr hne
  · intro hr
    rw [verify_eq_new st uid ip now hr]
    refine ⟨rfl, rfl, ?_⟩
    rw [getUser_updateUser, if_pos rfl]
    rfl
  · intro r hr hsame
    rw [verify_eq_same st uid ip now r hr hsame]
    refine ⟨rfl, ?_, ?_⟩
    · show ((st.ips.map _).find? _) = _
      rw [List.find?_map, hkeys ip]
      have hr2 : st.ips.find? (fun q => decide (q.ip_address = ip)) = some r := hr
      rw [hr2]
      have hip : r.ip_address = ip := by
        have hp := List.find?_some hr2
        simpa using hp
      simp only [Option.map_some']
      rw [if_pos hip]
    · rw [getUser_updateUser, if_pos rfl]
      rfl
  · intro ip2 r2 hr2
    cases hr : findIp st ip with
    | some r =>
      by_cases hne : r.user_id ≠ uid
      · rw [verify_eq_conflict st uid ip now r hr hne]
        exact ⟨r2, hr2, rfl, rfl⟩
      · rw [verify_eq_same st uid ip now r hr (by simpa using hne)]
        refine ⟨(fun q => if q.ip_address = ip then
            ({ q with user_id := uid, last_seen := now } : IpRecord) else q) r2, ?_, ?_, ?_⟩
        · show ((st.ips.map _).find? _) = _
          rw [List.find?_map, hkeys ip2]
          have hr2u : st.ips.find? (fun q => decide (q.ip_address = ip2)) = some r2 := hr2
          rw [hr2u]
          rfl
        · dsimp only
          by_cases hq : r2.ip_address = ip
          · rw [if_pos hq]
            have hru : r.user_id = uid := by simpa using hne
            have hr2u : st.ips.find? (fun q => decide (q.ip_address = ip2)) = some r2 := hr2
            have hip2 : r2.ip_address = ip2 := by
              have hp := List.find?_some hr2u
              simpa using hp
            have hsameip : ip2 = ip := by rw [← hip2, hq]
            subst hsameip
            have hr2r : r2 = r := by
              have hru2 : st.ips.find? (fun q => decide (q.ip_address = ip2)) = some r := hr
              rw [hr2u] at hru2
              injection hru2
            rw [hr2r, hru]
          · rw [if_neg hq]
        · dsimp only
          by_cases hq : r2.ip_address = ip
          · rw [if_pos hq]
          · rw [if_neg hq]
    | none =>
      rw [verify_eq_new st uid ip now hr]
      refine ⟨r2, ?_, rfl, rfl⟩
      show ((st.ips ++ _).find? _) = _
      rw [List.find?_append]
      have hr2u : st.ips.find? (fun q => decide (q.ip_address = ip2)) = some r2 := hr2
      rw [hr2u]
      rfl
  · intro hnd
    cases hr : findIp st ip with
    | some r =>
      by_cases hne : r.user_id ≠ uid
      · rw [verify_eq_conflict st uid ip now r hr hne]
        exact hnd
      · rw [verify_eq_same st uid ip now r hr (by simpa using hne)]
        show ((st.ips.map _).map IpRecord.ip_address).Nodup
        rw [List.map_map]
        rw [show (IpRecord.ip_address ∘ (fun q => if q.ip_address = ip then
            ({ q with user_id := uid, last_seen := now } : IpRecord) else q))
            = IpRecord.ip_address from funext (fun q => ip_map_preserves_key ip uid now q)]
        exact hnd
    | none =>
      rw [verify_eq_new st uid ip now hr]
      show ((st.ips ++ [(⟨ip, uid, now, now⟩ : IpRecord)]).map IpRecord.ip_address).Nodup
      rw [List.map_append, List.nodup_append]
      refine ⟨hnd, by simp, ?_⟩
      intro a ha hb
      simp only [List.map_cons, List.map_nil, List.mem_singleton] at hb
      obtain ⟨q, hq, he⟩ := List.mem_map.1 ha
      have hfn : st.ips.find? (fun q => decide (q.ip_address = ip)) = none := hr
      rw [List.find?_eq_none] at hfn
      exact hfn q hq (by rw [decide_eq_true_eq, he, hb])

def stC6 : St :=
  { users := [(1, blankUser), (2, blankUser)], tasks := [], submissions := [],
    withdrawals := [], transactions := [],
    ips := [⟨"a", 1, 5, 6⟩],
    nextSubId := 1, nextWId := 1, nextTaskId := 1 }

/-- C6 witness: the theorem applied to a concrete table where address
"a" is owned by user 1 — user 2's claim conflicts and changes nothing,
user 1's re-claim refreshes last_seen and keeps first_seen. -/
theorem C6_witness :
    verify_user_ip stC6 2 "a" 9 = (false, stC6)
    ∧ (verify_user_ip stC6 1 "a" 9).1 = true
    ∧ findIp (verify_user_ip stC6 1 "a" 9).2 "a" = some ⟨"a", 1, 5, 9⟩ := by
  have h2 := C6_address_first_writer_wins stC6 2 "a" 9
  have h1 := C6_address_first_writer_wins stC6 1 "a" 9
  have hc := h2.1 ⟨"a", 1, 5, 6⟩ (by decide) (by decide)
  have hs := h1.2.2.1 ⟨"a", 1, 5, 6⟩ (by decide) (by decide)
  exact ⟨hc, hs.1, hs.2.1⟩

/-- A withdrawal draft carries a non-negative amount. -/
def draftNonnegB : Option WDraft → Bool
  | some (.awaitingDetails _ a) => decide (0 ≤ a)
  | _ => true

/-- All task rewards in the catalog are non-negative. -/
def RewardsNonneg (st : St) : Prop := ∀ t ∈ st.tasks, 0 ≤ t.reward

/-- All drafted withdrawal amounts in the state are non-negative. -/
def DraftsNonneg (st : St) : Prop := ∀ p ∈ st.users, draftNonnegB p.2.wdraft = true

instance (st : St) : Decidable (RewardsNonneg st) :=
  inferInstanceAs (Decidable (∀ t ∈ st.tasks, 0 ≤ t.reward))

instance (st : St) : Decidable (DraftsNonneg st) :=
  inferInstanceAs (Decidable (∀ p ∈ st.users, draftNonnegB p.2.wdraft = true))

/-- The operation's own credit parameter is non-negative (only
admin_add_points takes one; the code never checks it). -/
def OpNonnegB : Op → Bool
  | .addPoints _ a => decide (0 ≤ a)
  | _ => true

lemma totals_same (st st2 : St) (husers : st2.users = st.users) (uid : ℕ) (u u2 : User)
    (hu : getUser st uid = some u) (hu2 : getUser st2 uid = some u2) :
    u.total_earned ≤ u2.total_earned ∧ u.total_withdrawn ≤ u2.total_withdrawn := by
  unfold getUser at hu2
  rw [husers] at hu2
  rw [getUser] at hu
  rw [hu] at hu2
  injection hu2 with hu2
  rw [← hu2]
  exact ⟨le_refl _, le_refl _⟩

lemma totals_update (st st1 : St) (uid0 : ℕ) (f : User → User)
    (husers : st1.users = st.users)
    (hf : ∀ v, v.total_earned ≤ (f v).total_earned ∧ v.total_withdrawn ≤ (f v).total_withdrawn)
    (uid : ℕ) (u u2 : User) (hu : getUser st uid = some u)
    (hu2 : getUser (updateUser st1 uid0 f) uid = some u2) :
    u.total_earned ≤ u2.total_earned ∧ u.total_withdrawn ≤ u2.total_withdrawn := by
  rw [getUser_updateUser] at hu2
  have hg1 : getUser st1 uid = getUser st uid := by unfold getUser; rw [husers]
  by_cases hv : uid = uid0
  · rw [if_pos hv, hg1, hu] at hu2
    simp only [Option.map_some'] at hu2
    injection hu2 with hu2
    rw [← hu2]
    exact hf u
  · rw [if_neg hv, hg1, hu] at hu2
    injection hu2 with hu2
    rw [← hu2]
    exact ⟨le_refl _, le_refl _⟩

/-- C9 (amended): total_earned and total_withdrawn never decrease under
any single operation provided every task reward in the state is
non-negative, every drafted withdrawal amount is non-negative, and the
operation's own admin-credit amount is non-negative. (The code checks
none of these signs; the unamended claim fails because admin_add_points
accepts a negative amount and then decreases total_earned.) -/
theorem C9_amended_totals_monotone (st : St) (op : Op) (uid : ℕ) (u u2 : User)
    (hR : RewardsNonneg st) (hD : DraftsNonneg st) (hOp : OpNonnegB op = true)
    (hu : getUser st uid = some u)
    (hu2 : getUser (step st op) uid = some u2) :
    u.total_earned ≤ u2.total_earned ∧ u.total_withdrawn ≤ u2.total_withdrawn := by
  cases op with
  | start uid0 =>
    have hst : getUser (start st uid0) uid = some u2 := hu2
    unfold start at hst
    cases hgu : getUser st uid0 with
    | some u0 =>
      rw [hgu] at hst
      try dsimp only at hst
      exact totals_same st st rfl uid u u2 hu hst
    | none =>
      rw [hgu] at hst
      have : lookupUser (st.users ++ [(uid0, blankUser)]) uid = some u2 := hst
      rw [lookupUser_append] at this
      rw [getUser] at hu
      rw [hu] at this
      injection this with h2
      rw [← h2]
      exact ⟨le_refl _, le_refl _⟩
  | verifyIp uid0 ip now =>
    have hst : getUser (verify_user_ip st uid0 ip now).2 uid = some u2 := hu2
    unfold verify_user_ip at hst
    cases hip : findIp st ip with
    | some r =>
      rw [hip] at hst
      dsimp only at hst
      by_cases hr : r.user_id ≠ uid0
      · rw [if_pos hr] at hst
        try dsimp only at hst
        exact totals_same st st rfl uid u u2 hu hst
      · rw [if_neg hr] at hst
        try dsimp only at hst
        refine totals_update st _ uid0 _ rfl ?_ uid u u2 hu hst
        exact (fun v => ⟨le_refl _, le_refl _⟩)
    | none =>
      rw [hip] at hst
      dsimp only at hst
      try dsimp only at hst
      refine totals_update st _ uid0 _ rfl ?_ uid u u2 hu hst
      exact (fun v => ⟨le_refl _, le_refl _⟩)
  | submitTask uid0 tid =>
    have hst : getUser (submit_task st uid0 tid).2 uid = some u2 := hu2
    unfold submit_task at hst
    cases hgu : getUser st uid0 with
    | none =>
      rw [hgu] at hst
      try dsimp only at hst
      exact totals_same st st rfl uid u u2 hu hst
    | some u0 =>
      rw [hgu] at hst
      dsimp only at hst
      by_cases hb : u0.is_verified = false ∨ u0.is_blocked = true
      · rw [if_pos hb] at hst
        try dsimp only at hst
        exact totals_same st st rfl uid u u2 hu hst
      · rw [if_neg hb] at hst
        cases hat : findActiveTask st tid with
        | none =>
          rw [hat] at hst
          try dsimp only at hst
          exact totals_same st st rfl uid u u2 hu hst
        | some t =>
          rw [hat] at hst
          dsimp only at hst
          by_cases hp : st.submissions.any (fun s =>
              decide (s.user_id = uid0 ∧ s.task_id = tid ∧ s.status = SubStatus.pending))
          · rw [if_pos hp] at hst
            try dsimp only at hst
            exact totals_same st st rfl uid u u2 hu hst
          · rw [if_neg hp] at hst
            try dsimp only at hst
            refine totals_update st st uid0 _ rfl ?_ uid u u2 hu hst
            exact (fun v => ⟨le_refl _, le_refl _⟩)
  | screenshot uid0 =>
    have hst : getUser (handle_screenshot st uid0).2 uid = some u2 := hu2
    unfold handle_screenshot at hst
    cases hgu : getUser st uid0 with
    | none =>
      rw [hgu] at hst
      try dsimp only at hst
      exact totals_same st st rfl uid u u2 hu hst
    | some u0 =>
      rw [hgu] at hst
      dsimp only at hst
      cases hps : u0.pending_submission with
      | none =>
        rw [hps] at hst
        try dsimp only at hst
        exact totals_same st st rfl uid u u2 hu hst
      | some tid =>
        rw [hps] at hst
        dsimp only at hst
        by_cases hp : st.submissions.any (fun s =>
            decide (s.user_id = uid0 ∧ s.task_id = tid ∧ s.status = SubStatus.approved))
        · rw [if_pos hp] at hst
          try dsimp only at hst
          refine totals_update st st uid0 _ rfl ?_ uid u u2 hu hst
          exact (fun v => ⟨le_refl _, le_refl _⟩)
        · rw [if_neg hp] at hst
          try dsimp only at hst
          refine totals_update st _ uid0 _ rfl ?_ uid u u2 hu hst
          exact (fun v => ⟨le_refl _, le_refl _⟩)
  | approveSub sid =>
    have hst : getUser (admin_approve_submission st sid).2 uid = some u2 := hu2
    unfold admin_approve_submission at hst
    cases hs : findPendingSub st sid with
    | none =>
      rw [hs] at hst
      try dsimp only at hst
      exact totals_same st st rfl uid u u2 hu hst
    | some s =>
      rw [hs] at hst
      dsimp only at hst
      cases ht : findTask st s.task_id with
      | none =>
        rw [ht] at hst
        try dsimp only at hst
        exact totals_same st st rfl uid u u2 hu hst
      | some t =>
        rw [ht] at hst
        try dsimp only at hst
        cases hgu : getUser st s.user_id with
        | none =>
          rw [hgu] at hst
          try dsimp only at hst
          exact totals_same st st rfl uid u u2 hu hst
        | some u0 =>
          rw [hgu] at hst
          dsimp only at hst
          rw [getUser_log] at hst
          have hmem : t ∈ st.tasks := List.mem_of_find?_eq_some ht
          have hrw : (0 : ℚ) ≤ t.reward := hR t hmem
          try dsimp only at hst
          refine totals_update st _ s.user_id _ rfl ?_ uid u u2 hu hst
          exact fun v => ⟨le_add_of_nonneg_right hrw, le_refl _⟩
  | rejectSub sid =>
    have hst : getUser (admin_reject_submission st sid).2 uid = some u2 := hu2
    unfold admin_reject_submission at hst
    cases hs : findPendingSub st sid with
    | none =>
      rw [hs] at hst
      try dsimp only at hst
      exact totals_same st st rfl uid u u2 hu hst
    | some s =>
      rw [hs] at hst
      dsimp only at hst
      cases hgu : getUser st s.user_id with
      | none =>
        rw [hgu] at hst
        try dsimp only at hst
        exact totals_same st st rfl uid u u2 hu hst
      | some u0 =>
        rw [hgu] at hst
        dsimp only at hst
        try dsimp only at hst
        refine totals_update st _ s.user_id _ rfl ?_ uid u u2 hu hst
        exact (fun v => ⟨le_refl _, le_refl _⟩)
  | withdrawMethod uid0 m =>
    refine totals_update st st uid0 _ rfl ?_ uid u u2 hu hu2
    exact (fun v => ⟨le_refl _, le_refl _⟩)
  | withdrawAmount uid0 amount =>
    have hst : getUser (handle_withdraw_amount st uid0 amount).2 uid = some u2 := hu2
    unfold handle_withdraw_amount at hst
    cases hgu : getUser st uid0 with
    | none =>
      rw [hgu] at hst
      try dsimp only at hst
      exact totals_same st st rfl uid u u2 hu hst
    | some u0 =>
      rw [hgu] at hst
      dsimp only at hst
      cases hw : u0.wdraft with
      | none =>
        rw [hw] at hst
        try dsimp only at hst
        exact totals_same st st rfl uid u u2 hu hst
      | some d =>
        rw [hw] at hst
        cases d with
        | awaitingAmount m =>
          dsimp only at hst
          by_cases h1 : amount < methodMin m
          · rw [if_pos h1] at hst
            try dsimp only at hst
            exact totals_same st st rfl uid u u2 hu hst
          · rw [if_neg h1] at hst
            by_cases h2 : amount > u0.balance
            · rw [if_pos h2] at hst
              try dsimp only at hst
              exact totals_same st st rfl uid u u2 hu hst
            · rw [if_neg h2] at hst
              try dsimp only at hst
              refine totals_update st st uid0 _ rfl ?_ uid u u2 hu hst
              exact (fun v => ⟨le_refl _, le_refl _⟩)
        | awaitingDetails m a =>
          try dsimp only at hst
          exact totals_same st st rfl uid u u2 hu hst
  | withdrawDetails uid0 valid =>
    have hst : getUser (handle_withdraw_details st uid0 valid).2 uid = some u2 := hu2
    unfold handle_withdraw_details at hst
    cases hgu : getUser st uid0 with
    | none =>
      rw [hgu] at hst
      try dsimp only at hst
      exact totals_same st st rfl uid u u2 hu hst
    | some u0 =>
      rw [hgu] at hst
      dsimp only at hst
      cases hw : u0.wdraft with
      | none =>
        rw [hw] at hst
        try dsimp only at hst
        exact totals_same st st rfl uid u u2 hu hst
      | some d =>
        rw [hw] at hst
        cases d with
        | awaitingAmount m =>
          try dsimp only at hst
          exact totals_same st st rfl uid u u2 hu hst
        | awaitingDetails m a =>
          dsimp only at hst
          by_cases hv : valid = false
          · rw [if_pos hv] at hst
            try dsimp only at hst
            exact totals_same st st rfl uid u u2 hu hst
          · rw [if_neg hv] at hst
            rw [getUser_log] at hst
            have hmem : (uid0, u0) ∈ st.users := lookupUser_mem hgu
            have hdn := hD (uid0, u0) hmem
            rw [hw] at hdn
            have ha : (0 : ℚ) ≤ a := of_decide_eq_true hdn
            try dsimp only at hst
            refine totals_update st _ uid0 _ rfl ?_ uid u u2 hu hst
            exact fun v => ⟨le_refl _, le_add_of_nonneg_right ha⟩
  | approveW wid =>
    have hst : getUser (admin_approve_withdrawal st wid).2 uid = some u2 := hu2
    unfold admin_approve_withdrawal at hst
    cases hw : findPendingW st wid with
    | none =>
      rw [hw] at hst
      try dsimp only at hst
      exact totals_same st st rfl uid u u2 hu hst
    | some w =>
      rw [hw] at hst
      try dsimp only at hst
      exact totals_same st _ rfl uid u u2 hu hst
  | rejectW wid =>
    have hst : getUser (admin_reject_withdrawal st wid).2 uid = some u2 := hu2
    unfold admin_reject_withdrawal at hst
    cases hw : findPendingW st wid with
    | none =>
      rw [hw] at hst
      try dsimp only at hst
      exact totals_same st st rfl uid u u2 hu hst
    | some w =>
      rw [hw] at hst
      dsimp only at hst
      cases hgu : getUser st w.user_id with
      | none =>
        rw [hgu] at hst
        try dsimp only at hst
        exact totals_same st st rfl uid u u2 hu hst
      | some u0 =>
        rw [hgu] at hst
        dsimp only at hst
        rw [getUser_log] at hst
        try dsimp only at hst
        refine totals_update st _ w.user_id _ rfl ?_ uid u u2 hu hst
        exact (fun v => ⟨le_refl _, le_refl _⟩)
  | addPoints uid0 amount =>
    have hst : getUser (admin_add_points st uid0 amount).2 uid = some u2 := hu2
    unfold admin_add_points at hst
    cases hgu : getUser st uid0 with
    | none =>
      rw [hgu] at hst
      try dsimp only at hst
      exact totals_same st st rfl uid u u2 hu hst
    | some u0 =>
      rw [hgu] at hst
      dsimp only at hst
      rw [getUser_log] at hst
      have ha : (0 : ℚ) ≤ amount := of_decide_eq_true hOp
      try dsimp only at hst
      refine totals_update st st uid0 _ rfl ?_ uid u u2 hu hst
      exact fun v => ⟨le_add_of_nonneg_right ha, le_refl _⟩
  | deductPoints uid0 amount =>
    have hst : getUser (admin_deduct_points st uid0 amount).2 uid = some u2 := hu2
    unfold admin_deduct_points at hst
    cases hgu : getUser st uid0 with
    | none =>
      rw [hgu] at hst
      try dsimp only at hst
      exact totals_same st st rfl uid u u2 hu hst
    | some u0 =>
      rw [hgu] at hst
      dsimp only at hst
      by_cases h1 : u0.balance < amount
      · rw [if_pos h1] at hst
        try dsimp only at hst
        exact totals_same st st rfl uid u u2 hu hst
      · rw [if_neg h1] at hst
        rw [getUser_log] at hst
        try dsimp only at hst
        refine totals_update st st uid0 _ rfl ?_ uid u u2 hu hst
        exact (fun v => ⟨le_refl _, le_refl _⟩)
  | addTask reward =>
    exact totals_same st _ rfl uid u u2 hu hu2
  | removeTask tid =>
    exact totals_same st _ rfl uid u u2 hu hu2

/-- C9 amended witness: a non-negative admin credit at a concrete state
keeps both cumulative counters non-decreasing. -/
theorem C9_amended_witness :
    uC9.total_earned ≤
      ({ uC9 with balance := uC9.balance + 2,
                  total_earned := uC9.total_earned + 2 } : User).total_earned
    ∧ uC9.total_withdrawn ≤
      ({ uC9 with balance := uC9.balance + 2,
                  total_earned := uC9.total_earned + 2 } : User).total_withdrawn :=
  C9_amended_totals_monotone stC9 (Op.addPoints 1 2) 1 uC9
    { uC9 with balance := uC9.balance + 2, total_earned := uC9.total_earned + 2 }
    (by decide) (by decide) (by decide) (by decide) rfl

end TaskBot
